import Mathlib

/-!
Verification of the r4fuse natural-language specification against a shallow
embedding of the repository's source (src/utils/path-utils.js,
src/utils/content-utils.ts, src/utils/timestamps.js, src/filesystem.ts,
src/filesystem.js, src/download.ts).

Strings are modelled as Lean `String` / `List Char` (JavaScript code points;
UTF-16 surrogate pairs are not modelled, a remark that matters only for
astral-plane characters).  JavaScript `toLowerCase` is modelled on its ASCII
fragment (`jsToLower`), which is the identity elsewhere, matching the simple
case mapping for all inputs used in theorems below.
-/

namespace R4Fuse

/-! ## Sanitizer (src/utils/path-utils.js, sanitizeFilename) -/

/-- The characters replaced by a hyphen: the class `[/\\:?"*<>|]` of the
source's first `replace`. -/
def bannedChars : List Char := ['/', '\\', ':', '?', '\"', '*', '<', '>', '|']

def isBanned (c : Char) : Bool := bannedChars.contains c

/-- JavaScript's `\s` character class (also the set trimmed by
`String.prototype.trim`). -/
def isJsWs (c : Char) : Bool :=
  c ∈ ['\t', '\n', '\x0b', '\x0c', '\r', ' ',
       ' ', ' ', ' ', ' ', ' ', ' ', ' ',
       ' ', ' ', ' ', ' ', ' ', ' ',
       ' ', ' ', ' ', ' ', '　', '﻿']

/-- The class `[\s-]` of the source's collapse and trim steps. -/
def isDashWs (c : Char) : Bool := c == '-' || isJsWs c

/-- `.replace(/[\s-]+/g, "-")`: each maximal run of whitespace-or-dash
becomes a single `'-'`.  The boolean records whether we are inside a run
whose dash has already been emitted. -/
def collapseAux : List Char → Bool → List Char
  | [], _ => []
  | c :: cs, true => if isDashWs c then collapseAux cs true else c :: collapseAux cs false
  | c :: cs, false =>
    if isDashWs c then '-' :: collapseAux cs true else c :: collapseAux cs false

/-- `.replace(/^[-\s]+|[-\s]+$/g, "")`: drop the leading and trailing
whitespace-or-dash runs. -/
def trimDashWs (l : List Char) : List Char :=
  (l.dropWhile isDashWs).rdropWhile isDashWs

/-- The ASCII case-mapping table. -/
def upperLower : List (Char × Char) :=
  [('A','a'), ('B','b'), ('C','c'), ('D','d'), ('E','e'), ('F','f'), ('G','g'),
   ('H','h'), ('I','i'), ('J','j'), ('K','k'), ('L','l'), ('M','m'), ('N','n'),
   ('O','o'), ('P','p'), ('Q','q'), ('R','r'), ('S','s'), ('T','t'), ('U','u'),
   ('V','v'), ('W','w'), ('X','x'), ('Y','y'), ('Z','z')]

/-- ASCII fragment of JavaScript `toLowerCase` (identity on all other
characters, matching the simple case mapping on every character appearing in
the theorems below). -/
def jsToLower (c : Char) : Char :=
  ((upperLower.find? fun q => q.1 = c).map fun q => q.2).getD c

/-- The character pipeline of `sanitizeFilename`, in source order: replace
banned characters with `'-'`, remove dots, collapse `[\s-]+` runs, trim
leading/trailing `[-\s]` runs, lowercase, truncate to 50. -/
def sanitizeSteps (l : List Char) : List Char :=
  ((trimDashWs
      (collapseAux
        ((l.map fun c => if isBanned c then '-' else c).filter fun c => c ≠ '.')
        false)).map jsToLower).take 50

/-- `sanitizeFilename` from src/utils/path-utils.js.  An empty input is falsy
(`if (!str) return "untitled"`), and an empty pipeline result falls back to
`"untitled"` via `|| "untitled"`. -/
def sanitizeFilename (s : String) : String :=
  if s = "" then "untitled"
  else if sanitizeSteps s.data = [] then "untitled"
  else String.mk (sanitizeSteps s.data)

/-! ### Structural facts about the sanitizer pipeline -/

/-- No two adjacent hyphens. -/
def NoDD (l : List Char) : Prop := l.Chain' fun a b => ¬(a = '-' ∧ b = '-')

theorem collapseAux_nil (b : Bool) : collapseAux [] b = [] := by cases b <;> rfl

theorem collapseAux_cons_true_pos {c : Char} {cs : List Char} (h : isDashWs c = true) :
    collapseAux (c :: cs) true = collapseAux cs true := by simp [collapseAux, h]

theorem collapseAux_cons_true_neg {c : Char} {cs : List Char} (h : isDashWs c = false) :
    collapseAux (c :: cs) true = c :: collapseAux cs false := by simp [collapseAux, h]

theorem collapseAux_cons_false_pos {c : Char} {cs : List Char} (h : isDashWs c = true) :
    collapseAux (c :: cs) false = '-' :: collapseAux cs true := by simp [collapseAux, h]

theorem collapseAux_cons_false_neg {c : Char} {cs : List Char} (h : isDashWs c = false) :
    collapseAux (c :: cs) false = c :: collapseAux cs false := by simp [collapseAux, h]

theorem mem_collapseAux {c : Char} :
    ∀ (l : List Char) (b : Bool), c ∈ collapseAux l b →
      c = '-' ∨ (c ∈ l ∧ isDashWs c = false) := by
  intro l
  induction l with
  | nil => intro b hc; rw [collapseAux_nil] at hc; simp at hc
  | cons x xs ih =>
    intro b hc
    cases hx : isDashWs x
    · cases b
      · rw [collapseAux_cons_false_neg hx] at hc
        rcases List.mem_cons.mp hc with rfl | h
        · exact Or.inr ⟨List.mem_cons_self _ _, hx⟩
        · rcases ih false h with h' | ⟨h1, h2⟩
          · exact Or.inl h'
          · exact Or.inr ⟨List.mem_cons_of_mem _ h1, h2⟩
      · rw [collapseAux_cons_true_neg hx] at hc
        rcases List.mem_cons.mp hc with rfl | h
        · exact Or.inr ⟨List.mem_cons_self _ _, hx⟩
        · rcases ih false h with h' | ⟨h1, h2⟩
          · exact Or.inl h'
          · exact Or.inr ⟨List.mem_cons_of_mem _ h1, h2⟩
    · cases b
      · rw [collapseAux_cons_false_pos hx] at hc
        rcases List.mem_cons.mp hc with rfl | h
        · exact Or.inl rfl
        · rcases ih true h with h' | ⟨h1, h2⟩
          · exact Or.inl h'
          · exact Or.inr ⟨List.mem_cons_of_mem _ h1, h2⟩
      · rw [collapseAux_cons_true_pos hx] at hc
        rcases ih true hc with h' | ⟨h1, h2⟩
        · exact Or.inl h'
        · exact Or.inr ⟨List.mem_cons_of_mem _ h1, h2⟩

theorem head?_collapseAux_true {c : Char} :
    ∀ l : List Char, (collapseAux l true).head? = some c → isDashWs c = false := by
  intro l
  induction l with
  | nil => rw [collapseAux_nil]; simp
  | cons x xs ih =>
    intro h
    cases hx : isDashWs x
    · rw [collapseAux_cons_true_neg hx] at h
      simp only [List.head?_cons, Option.some.injEq] at h
      subst h
      exact hx
    · rw [collapseAux_cons_true_pos hx] at h
      exact ih h

theorem chain'_collapseAux : ∀ (l : List Char) (b : Bool), NoDD (collapseAux l b) := by
  intro l
  induction l with
  | nil => intro b; rw [collapseAux_nil]; simp [NoDD]
  | cons x xs ih =>
    intro b
    cases hx : isDashWs x
    · have hxd : x ≠ '-' := by
        rintro rfl
        simp [isDashWs] at hx
      cases b <;> [rw [collapseAux_cons_false_neg hx]; rw [collapseAux_cons_true_neg hx]]
      all_goals
        rw [NoDD, List.chain'_cons']
        exact ⟨fun y hy => fun hk => hxd hk.1, ih false⟩
    · cases b
      · rw [collapseAux_cons_false_pos hx, NoDD, List.chain'_cons']
        refine ⟨fun y hy => ?_, ih true⟩
        rintro ⟨-, rfl⟩
        have := head?_collapseAux_true xs hy
        simp [isDashWs] at this
      · rw [collapseAux_cons_true_pos hx]
        exact ih true

theorem collapseAux_eq_self :
    ∀ l : List Char, (∀ c ∈ l, isJsWs c = false) → NoDD l → collapseAux l false = l := by
  intro l
  induction l with
  | nil => intro _ _; rfl
  | cons x xs ih =>
    intro hws hch
    cases hx : isDashWs x
    · rw [collapseAux_cons_false_neg hx]
      rw [ih (fun c hc => hws c (List.mem_cons_of_mem _ hc)) (List.chain'_cons'.mp hch).2]
    · have hxd : x = '-' := by
        have := hws x (List.mem_cons_self _ _)
        simp [isDashWs, this] at hx
        exact hx
      subst hxd
      rw [collapseAux_cons_false_pos hx]
      have hxs : collapseAux xs true = xs := by
        cases xs with
        | nil => rfl
        | cons y ys =>
          have hyw := hws y (List.mem_cons_of_mem _ (List.mem_cons_self _ _))
          have hyd : y ≠ '-' := by
            have := (List.chain'_cons'.mp hch).1 y (by simp)
            intro hc; exact this ⟨rfl, hc⟩
          have hy : isDashWs y = false := by
            simp [isDashWs, hyw]
            exact hyd
          have htail : collapseAux (y :: ys) false = y :: ys :=
            ih (fun c hc => hws c (List.mem_cons_of_mem _ hc)) (List.chain'_cons'.mp hch).2
          rw [collapseAux_cons_false_neg hy] at htail
          rw [collapseAux_cons_true_neg hy]
          exact htail
      rw [hxs]

def lowerLetters : List Char :=
  ['a','b','c','d','e','f','g','h','i','j','k','l','m',
   'n','o','p','q','r','s','t','u','v','w','x','y','z']

theorem jsToLower_fix_or_lower (c : Char) :
    jsToLower c = c ∨ jsToLower c ∈ lowerLetters := by
  unfold jsToLower
  cases hf : upperLower.find? fun q => q.1 = c with
  | none => exact Or.inl rfl
  | some p =>
    right
    have hp := List.mem_of_find?_eq_some hf
    have : ∀ q ∈ upperLower, q.2 ∈ lowerLetters := by decide
    simpa using this p hp

theorem jsToLower_fix_lowerLetters : ∀ c ∈ lowerLetters, jsToLower c = c := by decide

theorem jsToLower_idem (c : Char) : jsToLower (jsToLower c) = jsToLower c := by
  rcases jsToLower_fix_or_lower c with h | h
  · rw [h, h]
  · exact jsToLower_fix_lowerLetters _ h

theorem jsToLower_eq_dash {c : Char} (h : jsToLower c = '-') : c = '-' := by
  rcases jsToLower_fix_or_lower c with h' | h'
  · rw [← h', h]
  · rw [h] at h'; exact absurd h' (by decide)

theorem jsToLower_eq_dot {c : Char} (h : jsToLower c = '.') : c = '.' := by
  rcases jsToLower_fix_or_lower c with h' | h'
  · rw [← h', h]
  · rw [h] at h'; exact absurd h' (by decide)

theorem jsToLower_banned {c : Char} (h : isBanned (jsToLower c) = true) : isBanned c = true := by
  rcases jsToLower_fix_or_lower c with h' | h'
  · rwa [h'] at h
  · have : ∀ d ∈ lowerLetters, isBanned d = false := by decide
    rw [this _ h'] at h
    exact absurd h (by decide)

theorem jsToLower_ws {c : Char} (h : isJsWs (jsToLower c) = true) : isJsWs c = true := by
  rcases jsToLower_fix_or_lower c with h' | h'
  · rwa [h'] at h
  · have : ∀ d ∈ lowerLetters, isJsWs d = false := by decide
    rw [this _ h'] at h
    exact absurd h (by decide)

theorem map_eq_self_of_fix {f : Char → Char} :
    ∀ l : List Char, (∀ c ∈ l, f c = c) → l.map f = l := by
  intro l
  induction l with
  | nil => intro _; rfl
  | cons x xs ih =>
    intro h
    simp only [List.map_cons, h x (List.mem_cons_self _ _),
      ih fun c hc => h c (List.mem_cons_of_mem _ hc)]

theorem head?_dropWhile_false {p : Char → Bool} {y : Char} :
    ∀ l : List Char, (l.dropWhile p).head? = some y → p y = false := by
  intro l
  induction l with
  | nil => simp [List.dropWhile]
  | cons x xs ih =>
    intro h
    by_cases hx : p x <;> simp only [List.dropWhile, hx, if_true, if_false] at h
    · exact ih h
    · simp only [List.head?_cons, Option.some.injEq] at h
      subst h
      simpa using hx

theorem head?_of_prefixOf {l₁ l₂ : List Char} {y : Char}
    (hp : l₁ <+: l₂) (h : l₁.head? = some y) : l₂.head? = some y := by
  rcases hp with ⟨t, rfl⟩
  cases l₁ <;> simp_all

theorem head?_trimDashWs {l : List Char} {y : Char}
    (h : (trimDashWs l).head? = some y) : isDashWs y = false :=
  head?_dropWhile_false l
    (head?_of_prefixOf (List.rdropWhile_prefix isDashWs (l.dropWhile isDashWs)) h)

theorem head?_take_pos {l : List Char} {n : Nat} {y : Char}
    (hn : 0 < n) (h : (l.take n).head? = some y) : l.head? = some y := by
  cases l with
  | nil => simp at h
  | cons x xs =>
    cases n with
    | zero => exact absurd hn (by simp)
    | succ m => simpa using h

/-! ### Properties of every sanitizer output -/

theorem untitled_data : ("untitled" : String).data = ['u','n','t','i','t','l','e','d'] := rfl

theorem sanitize_mem_cases {s : String} {c : Char}
    (hc : c ∈ (sanitizeFilename s).data) :
    c ∈ ['u','n','t','i','t','l','e','d'] ∨
      c = '-' ∨
        ∃ d, isBanned d = false ∧ d ≠ '.' ∧ isDashWs d = false ∧ c = jsToLower d := by
  unfold sanitizeFilename at hc
  split at hc
  · rw [untitled_data] at hc; exact Or.inl hc
  · split at hc
    · rw [untitled_data] at hc; exact Or.inl hc
    · refine Or.inr ?_
      have hc' := List.take_subset _ _ hc
      rcases List.mem_map.mp hc' with ⟨d, hd, rfl⟩
      have hdm : d ∈ collapseAux ((s.data.map fun c => if isBanned c then '-' else c).filter
          fun c => c ≠ '.') false :=
        (List.dropWhile_suffix isDashWs).subset
          ((List.rdropWhile_prefix isDashWs _).subset hd)
      rcases mem_collapseAux _ _ hdm with rfl | ⟨hmem, hnd⟩
      · exact Or.inl (by decide)
      · refine Or.inr ⟨d, ?_, ?_, hnd, rfl⟩
        · rcases List.mem_map.mp (List.mem_of_mem_filter hmem) with ⟨e, _, he⟩
          by_cases hb : isBanned e <;> simp only [hb, if_true, if_false] at he <;> rw [← he]
          · decide
          · simpa using hb
        · simpa using List.of_mem_filter hmem

theorem sanitize_not_banned {s : String} {c : Char}
    (hc : c ∈ (sanitizeFilename s).data) : isBanned c = false := by
  rcases sanitize_mem_cases hc with h | rfl | ⟨d, hb, -, -, rfl⟩
  · fin_cases h <;> decide
  · decide
  · by_cases hbl : isBanned (jsToLower d) = true
    · rw [jsToLower_banned hbl] at hb; exact absurd hb (by decide)
    · simpa using hbl

theorem sanitize_no_dot {s : String} {c : Char}
    (hc : c ∈ (sanitizeFilename s).data) : c ≠ '.' := by
  rcases sanitize_mem_cases hc with h | rfl | ⟨d, -, hd, -, rfl⟩
  · fin_cases h <;> decide
  · decide
  · intro hdot; exact hd (jsToLower_eq_dot hdot)

theorem sanitize_no_ws {s : String} {c : Char}
    (hc : c ∈ (sanitizeFilename s).data) : isJsWs c = false := by
  rcases sanitize_mem_cases hc with h | rfl | ⟨d, -, -, hd, rfl⟩
  · fin_cases h <;> decide
  · decide
  · by_cases hwl : isJsWs (jsToLower d) = true
    · have := jsToLower_ws hwl
      simp [isDashWs, this] at hd
    · simpa using hwl

theorem sanitize_chain (s : String) : NoDD (sanitizeFilename s).data := by
  unfold sanitizeFilename
  split
  · rw [NoDD, untitled_data]; simp [List.chain'_cons, List.chain'_singleton]
  · split
    · rw [NoDD, untitled_data]; simp [List.chain'_cons, List.chain'_singleton]
    · rw [NoDD]
      show List.Chain' _ (sanitizeSteps s.data)
      rw [sanitizeSteps]
      refine List.Chain'.prefix ?_ (List.take_prefix _ _)
      rw [List.chain'_map]
      have hbase : List.Chain' (fun a b => ¬(a = '-' ∧ b = '-'))
          (collapseAux ((s.data.map fun c => if isBanned c then '-' else c).filter
            fun c => c ≠ '.') false) := chain'_collapseAux _ false
      refine ( hbase.infix
        (((List.rdropWhile_prefix isDashWs _).isInfix).trans
          (List.dropWhile_suffix isDashWs).isInfix)).imp ?_
      intro a b hab
      rintro ⟨ha, hb⟩
      exact hab ⟨jsToLower_eq_dash ha, jsToLower_eq_dash hb⟩

theorem sanitize_head_not_dash {s : String} {c : Char}
    (hc : (sanitizeFilename s).data.head? = some c) : c ≠ '-' := by
  unfold sanitizeFilename at hc
  split at hc
  · rw [untitled_data] at hc
    simp only [List.head?_cons, Option.some.injEq] at hc
    subst hc; decide
  · split at hc
    · rw [untitled_data] at hc
      simp only [List.head?_cons, Option.some.injEq] at hc
      subst hc; decide
    · intro hcd
      subst hcd
      have h1 := head?_take_pos (by decide) hc
      rw [List.head?_map] at h1
      rcases hm : (trimDashWs (collapseAux ((s.data.map fun c =>
          if isBanned c then '-' else c).filter fun c => c ≠ '.') false)).head? with _ | y
      · rw [hm] at h1; simp at h1
      · rw [hm] at h1
        have h2 : jsToLower y = '-' := by simpa using h1
        have hy := head?_trimDashWs hm
        have : y = '-' := jsToLower_eq_dash h2
        subst this
        simp [isDashWs] at hy

theorem sanitize_len_le (s : String) : (sanitizeFilename s).data.length ≤ 50 := by
  unfold sanitizeFilename
  split
  · decide
  · split
    · decide
    · show (sanitizeSteps s.data).length ≤ 50
      rw [sanitizeSteps]
      simp [List.length_take]

theorem sanitize_ne_empty (s : String) : sanitizeFilename s ≠ "" := by
  unfold sanitizeFilename
  split
  · decide
  · split
    · decide
    · rename_i h
      intro hcon
      exact h (congrArg String.data hcon)

theorem sanitize_lower_fixed {s : String} {c : Char}
    (hc : c ∈ (sanitizeFilename s).data) : jsToLower c = c := by
  unfold sanitizeFilename at hc
  split at hc
  · rw [untitled_data] at hc; fin_cases hc <;> decide
  · split at hc
    · rw [untitled_data] at hc; fin_cases hc <;> decide
    · rcases List.mem_map.mp (List.take_subset _ _ hc) with ⟨d, -, rfl⟩
      exact jsToLower_idem d

theorem mk_data (u : String) : String.mk u.data = u := rfl

theorem get_zero_head? {α : Type} (l : List α) (hl : 0 < l.length) :
    l.head? = some (l.get ⟨0, hl⟩) := by
  cases l with
  | nil => simp at hl
  | cons a as => rfl

theorem sanitizeSteps_eq_self_of_output (s : String)
    (h : (sanitizeFilename s).data.getLast? ≠ some '-') :
    sanitizeSteps (sanitizeFilename s).data = (sanitizeFilename s).data := by
  have hmap1 : (sanitizeFilename s).data.map (fun c => if isBanned c then '-' else c) =
      (sanitizeFilename s).data :=
    map_eq_self_of_fix _ fun c hc => by simp [sanitize_not_banned hc]
  have hfil : (sanitizeFilename s).data.filter (fun c => c ≠ '.') =
      (sanitizeFilename s).data :=
    List.filter_eq_self.mpr fun c hc => by simpa using sanitize_no_dot hc
  have hcol : collapseAux (sanitizeFilename s).data false = (sanitizeFilename s).data :=
    collapseAux_eq_self _ (fun c hc => sanitize_no_ws hc) (sanitize_chain s)
  have hdrop : (sanitizeFilename s).data.dropWhile isDashWs = (sanitizeFilename s).data := by
    rw [List.dropWhile_eq_self_iff]
    intro hl
    have hh := get_zero_head? (sanitizeFilename s).data hl
    have h1 := sanitize_head_not_dash hh
    have h2 := sanitize_no_ws (List.get_mem (sanitizeFilename s).data 0 hl)
    simp only [List.get_eq_getElem] at h1 h2
    simp [isDashWs, h1, h2]
  have hrdrop : (sanitizeFilename s).data.rdropWhile isDashWs = (sanitizeFilename s).data := by
    rw [List.rdropWhile_eq_self_iff]
    intro hl
    have hg := List.getLast?_eq_getLast (sanitizeFilename s).data hl
    have hne : (sanitizeFilename s).data.getLast hl ≠ '-' := by
      intro hc
      exact h (by rw [hg, hc])
    have hw := sanitize_no_ws (List.getLast_mem hl)
    simp [isDashWs, hne, hw]
  have hlow : (sanitizeFilename s).data.map jsToLower = (sanitizeFilename s).data :=
    map_eq_self_of_fix _ fun c hc => sanitize_lower_fixed hc
  have htake : (sanitizeFilename s).data.take 50 = (sanitizeFilename s).data :=
    List.take_of_length_le (sanitize_len_le s)
  rw [sanitizeSteps, hmap1, hfil, hcol, trimDashWs, hdrop, hrdrop, hlow, htake]

/-- C6 counterexample: on the spec's own example input the sanitizer collapses
the whole run `space dash space` to a single hyphen, so the result is not
`artist---song-title`. -/
theorem sanitize_artist_song_title_cex :
    sanitizeFilename "Artist - Song Title" ≠ "artist---song-title" := by decide

/-- C6 (corrected): `sanitize("Artist - Song Title")` equals
`"artist-song-title"`: the run `" - "` is a single `[\s-]+` run and becomes
one hyphen. -/
theorem sanitize_artist_song_title :
    sanitizeFilename "Artist - Song Title" = "artist-song-title" := by decide

/-- C4 counterexample: truncation to 50 characters happens after trimming, so
a title whose 50th character is a hyphen yields an output with a trailing
hyphen. -/
theorem sanitize_trailing_hyphen_cex :
    (sanitizeFilename (String.mk (List.replicate 49 'a' ++ ['-', 'b']))).data.getLast? =
      some '-' := by decide

/-- C4 (corrected): for every input, `sanitizeFilename` output contains no
character from the banned set and no dot, has no run of two consecutive
hyphens, no leading hyphen, and has length at most 50.  (The original claim's
"no trailing hyphen" fails: truncation to 50 code points happens after
trimming and can expose a trailing hyphen, see the counterexample.) -/
theorem sanitize_output_invariants (s : String) :
    (∀ c ∈ (sanitizeFilename s).data, isBanned c = false ∧ c ≠ '.') ∧
      NoDD (sanitizeFilename s).data ∧
        (∀ c, (sanitizeFilename s).data.head? = some c → c ≠ '-') ∧
          (sanitizeFilename s).data.length ≤ 50 :=
  ⟨fun c hc => ⟨sanitize_not_banned hc, sanitize_no_dot hc⟩,
    sanitize_chain s,
    fun _ hc => sanitize_head_not_dash hc,
    sanitize_len_le s⟩

/-- C5 counterexample: the sanitizer is not idempotent on an input whose
sanitized form ends in a hyphen exposed by truncation: the second application
trims that hyphen. -/
theorem sanitize_not_idempotent_cex :
    sanitizeFilename (sanitizeFilename (String.mk (List.replicate 49 'a' ++ ['-', 'b']))) ≠
      sanitizeFilename (String.mk (List.replicate 49 'a' ++ ['-', 'b'])) := by decide

/-- C5 (corrected): `sanitize(sanitize(s)) = sanitize(s)` for every `s` whose
sanitized form does not end in a hyphen (the only way idempotence can fail,
via truncation exposing a trailing hyphen). -/
theorem sanitize_idempotent_of_no_trailing_hyphen (s : String)
    (h : (sanitizeFilename s).data.getLast? ≠ some '-') :
    sanitizeFilename (sanitizeFilename s) = sanitizeFilename s := by
  have hne := sanitize_ne_empty s
  have hd : (sanitizeFilename s).data ≠ [] := by
    intro hc
    exact hne (by rw [← mk_data (sanitizeFilename s), hc])
  rw [sanitizeFilename, if_neg hne, sanitizeSteps_eq_self_of_output s h, if_neg hd]

/-- C5 witness. -/
theorem sanitize_idempotent_witness :
    (sanitizeFilename "Hello World").data.getLast? ≠ some '-' ∧
      sanitizeFilename (sanitizeFilename "Hello World") = sanitizeFilename "Hello World" :=
  ⟨by decide, sanitize_idempotent_of_no_trailing_hyphen "Hello World" (by decide)⟩

/-! ## Data model (src/filesystem.ts interfaces; src/utils/timestamps.js) -/

/-- A track record as returned by the catalog (newest-first ordering).
Fields are optional the way the TypeScript interface declares them; a JS
`undefined` is `none` and an empty string is a falsy `some ""`. -/
structure Track where
  id : Option String := none
  title : Option String := none
  url : Option String := none
  description : Option String := none
  discogs_url : Option String := none
  created_at : Option String := none
  updated_at : Option String := none
  tags : Option (List String) := none
deriving DecidableEq

structure Channel where
  slug : String
  name : Option String := none
  description : Option String := none
  image : Option String := none
  url : Option String := none
  created_at : Option String := none
  updated_at : Option String := none
deriving DecidableEq

/-- One observed catalog snapshot plus the config lists; `tracksFor` is
`sdk.channels.readChannelTracks` (assumed error-free; a catalog error would
surface as EIO and is outside every claim below). -/
structure Catalog where
  channels : List Channel
  tracksFor : String → List Track
  favorites : List String
  downloads : List String

/-- Ambient runtime facts: the ISO-8601 parser (`Date.parse`, epoch
milliseconds, `none` for NaN), the wall clock (`Date.now()`), the two
locale-dependent date formatters used in synthetic content, the configured
storage URL, and the process uid/gid. -/
structure Env where
  parseDate : String → Option Int
  nowMs : Int
  localeString : String → String
  localeDate : String → String
  supabaseUrl : String
  uid : Nat
  gid : Nat

/-- JavaScript `a || b` for optional strings (empty string is falsy). -/
def jsOr (o : Option String) (d : String) : String :=
  match o with
  | none => d
  | some s => if s = "" then d else s

/-- JavaScript truthiness of an optional string. -/
def jsTruthy (o : Option String) : Bool :=
  match o with
  | none => false
  | some s => s ≠ ""

/-- JavaScript string interpolation of a possibly-undefined value. -/
def jsStr (o : Option String) : String := o.getD "undefined"

/-- `createSafeDate` from src/utils/timestamps.js: a defined, non-empty,
parseable date string yields an instant (epoch ms), anything else `undefined`. -/
def createSafeDate (env : Env) (o : Option String) : Option Int :=
  match o with
  | some s => if s ≠ "" then env.parseDate s else none
  | none => none

/-- `getTimestamp` from src/utils/timestamps.js: seconds since epoch as a
float (exact rational here), falling back to the current wall clock. -/
def getTimestamp (env : Env) (d : Option Int) : Rat :=
  match d with
  | some ms => (ms : Rat) / 1000
  | none => (env.nowMs : Rat) / 1000

def S_IFDIR : Nat := 0o040000

def S_IFREG : Nat := 0o100000

structure Stat where
  mtime : Rat
  atime : Rat
  ctime : Rat
  nlink : Nat
  size : Nat
  mode : Nat
  uid : Nat
  gid : Nat
deriving DecidableEq

structure StatOptions where
  mode : Nat := 0
  size : Nat := 0
  isDir : Bool := false
  mtime : Option Int := none
  atime : Option Int := none
  ctime : Option Int := none

/-- `createStat` from src/utils/timestamps.js: add the missing file-type bit
(directory when `isDir` or when all three execute bits are set, regular file
otherwise) and derive the three timestamps. -/
def createStat (env : Env) (o : StatOptions) : Stat :=
  let mode :=
    if o.mode &&& S_IFDIR = 0 ∧ o.mode &&& S_IFREG = 0 then
      if o.isDir ∨ o.mode &&& 0o111 = 0o111 then o.mode ||| S_IFDIR
      else o.mode ||| S_IFREG
    else o.mode
  { mtime := getTimestamp env o.mtime
    atime := getTimestamp env o.atime
    ctime := getTimestamp env o.ctime
    nlink := 1
    size := o.size
    mode := mode
    uid := env.uid
    gid := env.gid }

/-! ## Path parsing (src/utils/path-utils.js, parsePath) -/

/-- `String.prototype.split("/")` on the character list. -/
def splitSlashAux : List Char → List Char → List (List Char)
  | [], acc => [acc.reverse]
  | c :: cs, acc =>
    if c = '/' then acc.reverse :: splitSlashAux cs [] else splitSlashAux cs (c :: acc)

def rawSplit (p : String) : List String :=
  (splitSlashAux p.data []).map fun l => String.mk l

/-- `path.split("/").filter(Boolean)`: the non-empty path segments.  The
segment accessors `root/channel/subdir/file/file2` of the source's
`parsePath` are positions 0-4 of this list. -/
def parseParts (p : String) : List String :=
  (rawSplit p).filter fun s => s ≠ ""

/-! ## Tag extraction and track text (src/utils/content-utils.ts) -/

/-- JavaScript `\w`. -/
def isWordChar (c : Char) : Bool :=
  ('a' ≤ c && c ≤ 'z') || ('A' ≤ c && c ≤ 'Z') || ('0' ≤ c && c ≤ '9') || c = '_'

/-- Close a pending hashtag: `some acc` holds the word characters collected
(reversed) since the last `#`; an empty collection is not a match. -/
def closeTag : Option (List Char) → List String
  | some acc => if acc = [] then [] else [String.mk acc.reverse]
  | none => []

/-- One left-to-right scan for the global regex `#[\w]+`: on a `#` begin
collecting, extend through word characters (greedy), emit on the first
non-word character or at the end; matches do not overlap, exactly as the
JavaScript global regex behaves.  Tags are emitted without the leading `#`
(the source immediately strips it with `substring(1)`). -/
def hashtagAux : List Char → Option (List Char) → List String
  | [], st => closeTag st
  | c :: rest, some acc =>
    if isWordChar c then hashtagAux rest (some (c :: acc))
    else
      closeTag (some acc) ++
        (if c = '#' then hashtagAux rest (some []) else hashtagAux rest none)
  | c :: rest, none =>
    if c = '#' then hashtagAux rest (some []) else hashtagAux rest none

def hashtagScan (l : List Char) : List String := hashtagAux l none

def jsLowerString (s : String) : String := String.mk (s.data.map jsToLower)

/-- JavaScript `Set.prototype.add`: append when absent. -/
def jsSetAdd (l : List String) (x : String) : List String :=
  if x ∈ l then l else l ++ [x]

/-- `[...new Set(list)]`: deduplicate keeping first occurrences. -/
def dedupFirst (l : List String) : List String := l.foldl jsSetAdd []

/-- `extractTagsFromTrack` from src/utils/content-utils.ts: lowercased
description hashtags, then the lowercased explicit tag list, deduplicated. -/
def extractTagsFromTrack (t : Track) : List String :=
  let fromDesc :=
    match t.description with
    | some d => if d ≠ "" then (hashtagScan d.data).map jsLowerString else []
    | none => []
  let fromTags :=
    match t.tags with
    | some ts => ts.map jsLowerString
    | none => []
  dedupFirst (fromDesc ++ fromTags)

/-- `formatTrackContent` from src/utils/content-utils.ts. -/
def formatTrackContent (env : Env) (t : Track) : String :=
  let lines :=
    ["Title: " ++ jsOr t.title "Untitled", "URL: " ++ jsStr t.url]
    ++ (if jsTruthy t.description then ["\nDescription:\n" ++ t.description.getD ""] else [])
    ++ (if jsTruthy t.discogs_url then ["\nDiscogs: " ++ t.discogs_url.getD ""] else [])
    ++ (if jsTruthy t.created_at then
          ["\nAdded: " ++ env.localeString (t.created_at.getD "")] else [])
    ++ (if jsTruthy t.updated_at then
          ["Updated: " ++ env.localeString (t.updated_at.getD "")] else [])
    ++ (if extractTagsFromTrack t ≠ [] then
          ["\nTags: " ++
            String.intercalate " " ((extractTagsFromTrack t).map fun tg => "#" ++ tg)]
        else [])
  String.intercalate "\n" lines ++ "\n"

/-! ## Content producer (src/filesystem.ts, getFileContent) -/

def findChannel (cat : Catalog) (slug : String) : Option Channel :=
  cat.channels.find? fun c => c.slug = slug

/-- `String.prototype.endsWith`, on the character lists (the core
`String.endsWith` does not reduce in the kernel). -/
def strEndsWith (s suffix : String) : Bool := suffix.data.isSuffixOf s.data

/-- `String.prototype.startsWith`. -/
def strStartsWith (s pre : String) : Bool := pre.data.isPrefixOf s.data

/-- Drop the last `n` characters. -/
def strDropRight (s : String) (n : Nat) : String :=
  String.mk (s.data.take (s.data.length - n))

/-- `file.replace(/\.txt$/, "")`. -/
def stripTxt (f : String) : String :=
  if strEndsWith f ".txt" then strDropRight f 4 else f

/-- The track resolver (§4.4): reverse the catalog order and take the first
track whose sanitized title matches the filename stem. -/
def resolveTrack (tracks : List Track) (filename : String) : Option Track :=
  tracks.reverse.find? fun t => sanitizeFilename (jsOr t.title "untitled") = filename

inductive FsErr
  | enoent
  | eio
  | erofs
deriving DecidableEq

def helpText : String :=
  "r4fuse - Radio4000 FUSE Filesystem\n=====================================\n\nQuick Start:\n  ls channels/                     # Browse all channels\n  cat channels/oskar/ABOUT.txt     # Read about a channel\n  ls channels/oskar/tracks/        # View track metadata files\n  ls -lt channels/oskar/tracks/    # Sort by timestamp (oldest first)\n  ls channels/oskar/tags/          # View tracks organized by tags\n\n  # Files use track creation/update timestamps - sort by date naturally!\n\n  # View favorites and downloads\n  ls favorites/                    # View favorite channels\n  ls downloads/                    # View channels marked for download\n\nConfiguration:\n  All settings are stored in: ~/.config/radio4000/r4fuse/\n\n  settings.json   # All settings (see below)\n  favorites.txt   # Favorite channels (one per line)\n  downloads.txt   # Channels to auto-download (one per line)\n\nSettings.json options:\n  downloader: \"yt-dlp\" or \"youtube-dl\"\n  features.organizeByTags: true/false (organize downloads by tags)\n  features.rsyncEnabled: true/false (enable rsync sync)\n  paths.mountPoint: custom mount point path\n  paths.downloadDir: custom download directory path\n\nTag Organization:\n  Both mounted and downloaded channels organize tracks as:\n    tracks/              # All track files\n    tags/<tagname>/      # Tracks grouped by tag (symlinks)\n\n  Tags are extracted from hashtags in track descriptions.\n\nSee README.md in the project directory for complete documentation.\n"

/-- The ABOUT.txt template of getFileContent. -/
def aboutText (env : Env) (channel : Channel) (tracks : List Track) : String :=
  let name := jsOr channel.name "Untitled Channel"
  name ++ "\n" ++ String.mk (List.replicate name.length '=') ++ "\n\n" ++
    jsOr channel.description "No description available." ++
    "\n\nStats:\n  Tracks: " ++ toString tracks.length ++ "\n  Created: " ++
    (if jsTruthy channel.created_at then env.localeDate (channel.created_at.getD "")
     else "Unknown") ++ "\n  " ++
    (if jsTruthy channel.url then "Website: " ++ channel.url.getD "" else "") ++
    "\n\nQuick Access:\n  info.txt      # Machine-readable metadata\n  tracks.m3u    # Playlist for streaming\n  tracks/       # Individual track files\n\nConfiguration:\n  Add channels to favorites in ~/.config/radio4000/r4fuse/favorites.txt\n  Mark for auto-download in ~/.config/radio4000/r4fuse/downloads.txt\n"

/-- The tracks.m3u playlist: `#EXTM3U` then, per track in catalog (unreversed)
order, an EXTINF line and the raw upstream URL. -/
def m3uContent (tracks : List Track) : String :=
  tracks.foldl
    (fun acc t => acc ++ "#EXTINF:-1," ++ jsOr t.title "Untitled" ++ "\n" ++ jsStr t.url ++ "\n")
    "#EXTM3U\n"

/-- `url.replace(/\/$/, "")`: strip one trailing slash. -/
def stripTrailSlash (s : String) : String :=
  if strEndsWith s "/" then strDropRight s 1 else s

def hexDigit (n : Nat) : Char :=
  if n < 10 then Char.ofNat ('0'.toNat + n) else Char.ofNat ('a'.toNat + n - 10)

/-- JSON string escaping as performed by `JSON.stringify`. -/
def jsonEscapeChar (c : Char) : String :=
  if c = '\"' then "\\\""
  else if c = '\\' then "\\\\"
  else if c = '\n' then "\\n"
  else if c = '\r' then "\\r"
  else if c = '\t' then "\\t"
  else if c = '\x08' then "\\b"
  else if c = '\x0c' then "\\f"
  else if c.toNat < 32 then
    "\\u00" ++ String.mk [hexDigit (c.toNat / 16), hexDigit (c.toNat % 16)]
  else String.singleton c

def jsonStr (s : String) : String :=
  "\"" ++ String.join (s.data.map jsonEscapeChar) ++ "\""

/-- One track object of `JSON.stringify(orderedTracks, null, 2)`, rendered at
array-element depth (object keys at four spaces).  `undefined` fields are
omitted, in the field order of the Track interface. -/
def trackJson (t : Track) : String :=
  let strField := fun (k : String) (v : Option String) =>
    match v with
    | some s => ["\"" ++ k ++ "\": " ++ jsonStr s]
    | none => []
  let fields :=
    strField "id" t.id ++ strField "title" t.title ++ strField "url" t.url ++
    strField "description" t.description ++ strField "discogs_url" t.discogs_url ++
    strField "created_at" t.created_at ++ strField "updated_at" t.updated_at ++
    (match t.tags with
     | some ts =>
       ["\"tags\": " ++
         (if ts = [] then "[]"
          else "[\n" ++ String.intercalate ",\n" (ts.map fun s => "      " ++ jsonStr s) ++
            "\n    ]")]
     | none => [])
  if fields = [] then "\x7b\x7d"
  else "\x7b\n" ++ String.intercalate ",\n" (fields.map fun f => "    " ++ f) ++ "\n  \x7d"

/-- `JSON.stringify(orderedTracks, null, 2)`. -/
def tracksJson (ordered : List Track) : String :=
  match ordered with
  | [] => "[]"
  | _ => "[\n" ++ String.intercalate ",\n" (ordered.map fun t => "  " ++ trackJson t) ++ "\n]"

/-- `getFileContent` from src/filesystem.ts.  Branch order and conditions
follow the source: the raw-path HELP check, then the channel files (each a
`parsed`-component condition, expressed as the equivalent segment pattern),
then the tracks files; everything else throws ENOENT — in particular there is
no branch for tag paths. -/
def getFileContent (env : Env) (cat : Catalog) (path : String) : Except FsErr String :=
  if path = "/HELP.txt" then .ok helpText
  else
    match parseParts path with
    | ["channels", ch, "ABOUT.txt"] =>
      match findChannel cat ch with
      | none => .error .eio
      | some channel => .ok (aboutText env channel (cat.tracksFor ch))
    | ["channels", ch, "image.url"] =>
      match findChannel cat ch with
      | none => .error .eio
      | some channel =>
        if jsTruthy channel.image then
          if strStartsWith (channel.image.getD "") "http" then
            .ok (channel.image.getD "" ++ "\n")
          else
            .ok (stripTrailSlash env.supabaseUrl ++ "/storage/v1/object/public/channels/" ++
              channel.image.getD "" ++ "\n")
        else .ok ""
    | ["channels", ch, "tracks.m3u"] => .ok (m3uContent (cat.tracksFor ch))
    | "channels" :: ch :: "tracks" :: f :: _ =>
      let tracks := cat.tracksFor ch
      if f = "tracks.json" then .ok (tracksJson tracks.reverse)
      else if strEndsWith f ".txt" then
        match resolveTrack tracks (stripTxt f) with
        | some t => .ok (formatTrackContent env t)
        | none => .error .enoent
      else .error .enoent
    | _ => .error .enoent

/-! ## Attribute producer (src/filesystem.ts, getattr) -/

inductive EntryType
  | dir
  | file
deriving DecidableEq

structure StructEntry where
  type : EntryType
  mode : Nat
  content : Option String
deriving DecidableEq

/-- Lookup in the static `structure` table of src/filesystem.ts (five entries:
the root and HELP.txt plus the three top-level directories). -/
def structLookup (p : String) : Option StructEntry :=
  if p = "/" then some ⟨.dir, 0o755, none⟩
  else if p = "/HELP.txt" then some ⟨.file, 0o444, some ""⟩
  else if p = "/channels" then some ⟨.dir, 0o755, none⟩
  else if p = "/favorites" then some ⟨.dir, 0o755, none⟩
  else if p = "/downloads" then some ⟨.dir, 0o755, none⟩
  else none

/-- The valid-timestamp filter of the directory aggregations (both date
strings truthy and parseable). -/
def validDates (env : Env) (t : Track) : Bool :=
  jsTruthy t.created_at && (env.parseDate (t.created_at.getD "")).isSome &&
    jsTruthy t.updated_at && (env.parseDate (t.updated_at.getD "")).isSome

def trackCreatedMs (env : Env) (t : Track) : Int :=
  (env.parseDate (t.created_at.getD "")).getD 0

def trackUpdatedMs (env : Env) (t : Track) : Int :=
  (env.parseDate (t.updated_at.getD "")).getD 0

/-- Stable insertion of a track into a key-sorted list (the element being
inserted precedes later elements with an equal key, as JS stable sort does). -/
def insertAsc (key : Track → Int) (t : Track) : List Track → List Track
  | [] => [t]
  | x :: xs => if key t ≤ key x then t :: x :: xs else x :: insertAsc key t xs

/-- Stable ascending sort by an integer key, modelling
`Array.prototype.sort` with a numeric-difference comparator. -/
def sortTracksBy (key : Track → Int) (l : List Track) : List Track :=
  l.foldr (insertAsc key) []

/-- The `(dirCreated, dirUpdated)` aggregation shared by the `tracks`, `tags`
and per-tag directory branches of getattr: filter to valid dates, sort by
created ascending and by updated descending, take the heads. -/
def aggTimes (env : Env) (ts : List Track) : Option Int × Option Int :=
  let valid := ts.filter (validDates env)
  match sortTracksBy (trackCreatedMs env) valid,
      sortTracksBy (fun t => -(trackUpdatedMs env t)) valid with
  | c :: _, u :: _ => (createSafeDate env c.created_at, createSafeDate env u.updated_at)
  | _, _ => (none, none)

/-- The tag-membership test of getattr's tag-directory branch
(src/filesystem.ts lines 283-287).  Note the literal `"untitled"` used for a
track with an empty derived tag set — not `"untagged"`. -/
def tagDirIncludes (tagName : String) (t : Track) : Bool :=
  let tags := extractTagsFromTrack t
  let trackTags := if tags.length > 0 then tags else ["untitled"]
  trackTags.contains tagName

/-- The derived-or-`untagged` membership test used by readdir's per-tag
listing and by getattr's tag-track-file branch. -/
def tagListIncludes (tagName : String) (t : Track) : Bool :=
  let tags := extractTagsFromTrack t
  let trackTags := if tags.length > 0 then tags else ["untagged"]
  trackTags.contains tagName

/-- The channel-timestamp directory stat (channel branch and the empty-tracks
fallback of the tracks/tags branches). -/
def channelDirStat (env : Env) (channel : Channel) : Stat :=
  createStat env
    { mode := 0o755, size := 0, isDir := true
      mtime := createSafeDate env channel.updated_at
      ctime := createSafeDate env channel.created_at
      atime := createSafeDate env channel.updated_at }

/-- The `tracks`/`tags` directory branches: aggregate track timestamps, or
fall back to the channel's own timestamps when the channel has no tracks. -/
def trackAggDirStat (env : Env) (cat : Catalog) (ch : String) : Except FsErr Stat :=
  let tracks := cat.tracksFor ch
  if tracks.length > 0 then
    let agg := aggTimes env tracks
    .ok (createStat env
      { mode := 0o755, size := 0, isDir := true
        mtime := agg.2, ctime := agg.1, atime := agg.2 })
  else
    match findChannel cat ch with
    | none => .error .eio
    | some channel => .ok (channelDirStat env channel)

/-- `getattr` from src/filesystem.ts, without the favorites/downloads alias
branch (handled by the wrapper below; inside this function such a path falls
through to ENOENT exactly as a path matching no branch does).  The source is
an ordered chain of early-return `if`s over `parsePath(path)`; the segment
patterns below are pairwise disjoint and equivalent to those conditions, and
an inner fall-through (unmatched stem, wrong extension, missing tag) returns
ENOENT because no later branch can match the same segments. -/
def getattrNR (env : Env) (cat : Catalog) (path : String) : Except FsErr Stat :=
  match structLookup path with
  | some e =>
    match e.type with
    | .dir => .ok (createStat env { mode := e.mode, size := 0, isDir := true })
    | .file =>
      (if path = "/HELP.txt" ∨ path = "/.ctrl/HELP.txt" then getFileContent env cat path
       else .ok (e.content.getD "")).map fun content =>
        createStat env { mode := e.mode, size := content.utf8ByteSize, isDir := false }
  | none =>
    match parseParts path with
    | ["channels", ch] =>
      match findChannel cat ch with
      | none => .error .eio
      | some channel => .ok (channelDirStat env channel)
    | ["channels", ch, "tracks"] => trackAggDirStat env cat ch
    | ["channels", ch, "tags"] => trackAggDirStat env cat ch
    | ["channels", ch, "tags", tag] =>
      let tagTracks := (cat.tracksFor ch).filter (tagDirIncludes tag)
      let agg := if tagTracks.length > 0 then aggTimes env tagTracks else (none, none)
      .ok (createStat env
        { mode := 0o755, size := 0, isDir := true
          mtime := agg.2, ctime := agg.1, atime := agg.2 })
    | ["channels", ch, sub] =>
      if sub = "ABOUT.txt" ∨ sub = "image.url" ∨ sub = "tracks.m3u" then
        (getFileContent env cat path).bind fun content =>
          match findChannel cat ch with
          | none => .error .eio
          | some channel =>
            .ok (createStat env
              { mode := 0o444, size := content.utf8ByteSize, isDir := false
                mtime := createSafeDate env channel.updated_at
                ctime := createSafeDate env channel.created_at
                atime := createSafeDate env channel.updated_at })
      else .error .enoent
    | ["channels", ch, "tracks", f] =>
      if f = "tracks.json" then
        (getFileContent env cat path).map fun content =>
          createStat env { mode := 0o444, size := content.utf8ByteSize, isDir := false }
      else if strEndsWith f ".txt" then
        match resolveTrack (cat.tracksFor ch) (stripTxt f) with
        | some track =>
          (getFileContent env cat path).map fun content =>
            createStat env
              { mode := 0o444, size := content.utf8ByteSize, isDir := false
                mtime := createSafeDate env track.created_at
                ctime := createSafeDate env track.updated_at
                atime := createSafeDate env track.updated_at }
        | none => .error .enoent
      else .error .enoent
    | ["channels", ch, "tags", tag, f2] =>
      if strEndsWith f2 ".txt" then
        match resolveTrack (cat.tracksFor ch) (stripTxt f2) with
        | some track =>
          if tagListIncludes tag track then
            (getFileContent env cat path).map fun content =>
              createStat env
                { mode := 0o444, size := content.utf8ByteSize, isDir := false
                  mtime := createSafeDate env track.created_at
                  ctime := createSafeDate env track.updated_at
                  atime := createSafeDate env track.updated_at }
          else .error .enoent
        | none => .error .enoent
      else .error .enoent
    | ["favorites", _] => .ok (createStat env { mode := 0o755, size := 0, isDir := true })
    | ["downloads", _] => .ok (createStat env { mode := 0o755, size := 0, isDir := true })
    | _ => .error .enoent

/-- The favorites/downloads alias rewrite `/channels/{slug}/{subdir}/{file}`
(the deeper `file2` component is dropped by the source). -/
def aliasRewrite (ch : String) (sub f : Option String) : String :=
  "/channels/" ++ ch ++
    (match sub with | some s => "/" ++ s | none => "") ++
    (match f with | some s => "/" ++ s | none => "")

/-- `getattr` from src/filesystem.ts.  A favorites/downloads path with a
subdirectory is rewritten to the `/channels` path and re-dispatched (the
rewritten path starts with `channels`, so one rewrite step is exact). -/
def getattr (env : Env) (cat : Catalog) (path : String) : Except FsErr Stat :=
  match parseParts path with
  | root :: ch :: sub :: rest =>
    if root = "favorites" ∨ root = "downloads" then
      getattrNR env cat (aliasRewrite ch (some sub) rest.head?)
    else getattrNR env cat path
  | _ => getattrNR env cat path

/-! ## Listing producer (src/filesystem.ts, readdir) -/

/-- JS string sort order: `a < b` on the code-point sequences (the UTF-16
unit order of the source differs only on astral-plane characters).  Sorting
uses Mathlib's insertion sort; any comparison sort yields the same list, it
being sorted and a permutation of a fixed multiset. -/
def sortStrings (l : List String) : List String :=
  List.insertionSort (fun a b => a.data ≤ b.data) l

/-- One iteration of readdir's tag-collection loop: insert the track's
derived tags, or `untagged` when the derived set is empty, into the JS `Set`
accumulator. -/
def tagStep (acc : List String) (t : Track) : List String :=
  let tags := extractTagsFromTrack t
  if tags.length = 0 then jsSetAdd acc "untagged"
  else tags.foldl jsSetAdd acc

/-- The tag set of a channel as built by readdir: per track, the derived tags
or `untagged` when empty, inserted in order into a JS `Set`. -/
def tagSetOfTracks (tracks : List Track) : List String :=
  tracks.foldl tagStep []

/-- The readdir name of a track. -/
def trackFileName (t : Track) : String :=
  sanitizeFilename (jsOr t.title "untitled") ++ ".txt"

/-- The falsiness test `!path.split("/")[5]` of readdir's per-tag branch
(performed on the raw split, before dropping empty segments). -/
def rawSixthFalsy (path : String) : Bool :=
  match (rawSplit path).get? 5 with
  | none => true
  | some s => s = ""

/-- `readdir` from src/filesystem.ts without the alias branch (see wrapper). -/
def readdirNR (env : Env) (cat : Catalog) (path : String) : Except FsErr (List String) :=
  if path = "/" then .ok [".", "..", "HELP.txt", "channels", "favorites", "downloads"]
  else if path = "/channels" then .ok ([".", ".."] ++ cat.channels.map Channel.slug)
  else
    match parseParts path with
    | ["channels", _] =>
      .ok [".", "..", "ABOUT.txt", "image.url", "tracks.m3u", "tracks", "tags"]
    | ["channels", ch, "tracks"] =>
      .ok ([".", ".."] ++
        "tracks.json" :: (cat.tracksFor ch).reverse.map trackFileName)
    | ["channels", ch, "tags"] =>
      .ok ([".", ".."] ++ sortStrings (tagSetOfTracks (cat.tracksFor ch)))
    | "channels" :: ch :: "tags" :: tag :: _ =>
      if rawSixthFalsy path then
        .ok ([".", ".."] ++
          (((cat.tracksFor ch).reverse.filter (tagListIncludes tag)).map trackFileName))
      else .error .enoent
    | _ =>
      if path = "/favorites" then .ok ([".", ".."] ++ cat.favorites)
      else if path = "/downloads" then .ok ([".", ".."] ++ cat.downloads)
      else .error .enoent

/-- `readdir` from src/filesystem.ts: favorites/downloads paths with a channel
segment are rewritten to `/channels/{slug}/{subdir}` and re-dispatched. -/
def readdir (env : Env) (cat : Catalog) (path : String) : Except FsErr (List String) :=
  match parseParts path with
  | root :: ch :: rest =>
    if root = "favorites" ∨ root = "downloads" then
      readdirNR env cat (aliasRewrite ch rest.head? none)
    else readdirNR env cat path
  | _ => readdirNR env cat path

/-! ## Read and write (src/filesystem.ts) -/

/-- The content a `read` call materializes: the alias rewrite (which for read
also covers `/favorites/{slug}` itself and keeps `file`), then
`getFileContent`. -/
def readContent (env : Env) (cat : Catalog) (path : String) : Except FsErr String :=
  match parseParts path with
  | root :: ch :: rest =>
    if root = "favorites" ∨ root = "downloads" then
      getFileContent env cat (aliasRewrite ch (rest.get? 0) (rest.get? 1))
    else getFileContent env cat path
  | _ => getFileContent env cat path

/-- `read` from src/filesystem.ts: materialize the content, UTF-8 encode, and
return the length of `data.slice(position, position + length)`. -/
def read (env : Env) (cat : Catalog) (path : String) (length position : Nat) :
    Except FsErr Nat :=
  (readContent env cat path).map fun content =>
    min (position + length) content.utf8ByteSize - min position content.utf8ByteSize

/-- `write` from src/filesystem.ts: every write fails read-only. -/
def write (_path : String) (_buf : String) (_length : Nat) : Except FsErr Nat :=
  .error .erofs

/-- `open` from src/filesystem.ts (and the identical handler in
src/filesystem.js): unconditionally return file descriptor 0. -/
def openFs (_path : String) (_flags : Nat) : Except FsErr Nat := .ok 0

/-! ## Control-file writes (src/filesystem.js, write; src/preferences.js;
src/download.ts, queueDownload) -/

/-- `queueDownload` from src/download.ts: enqueue unless already queued. -/
def queueDownload (q : List String) (slug : String) : List String :=
  if q.contains slug then q else q ++ [slug]

/-- `String.prototype.trim()`. -/
def jsTrim (s : String) : String :=
  String.mk ((s.data.dropWhile isJsWs).rdropWhile isJsWs)

/-- `addFavorite`/`addDownload` from src/preferences.js: push when absent. -/
def addIfAbsent (l : List String) (x : String) : List String :=
  if l.contains x then l else l ++ [x]

def splitCharAux (sep : Char) : List Char → List Char → List (List Char)
  | [], acc => [acc.reverse]
  | c :: cs, acc =>
    if c = sep then acc.reverse :: splitCharAux sep cs [] else splitCharAux sep cs (c :: acc)

/-- `content.split(" ", 2)`: the first two space-separated pieces. -/
def splitSpace2 (s : String) : Option String × Option String :=
  let parts := (splitCharAux ' ' s.data []).map fun l => String.mk l
  (parts.get? 0, parts.get? 1)

/-- The mutable state the write handlers of src/filesystem.js act on: the
download queue (src/download.js module state), the favorites and downloads
lists (preferences files), the cache, and the requested rsync jobs. -/
structure CtrlState where
  queue : List String
  favorites : List String
  downloads : List String
  cacheCleared : Bool
  syncs : List (String × String)
deriving DecidableEq

/-- The seven control files of src/filesystem.js `write`. -/
def ctrlPaths : List String :=
  ["/.ctrl/download", "/.ctrl/cache", "/.ctrl/favorite", "/.ctrl/unfavorite",
   "/.ctrl/add-download", "/.ctrl/remove-download", "/.ctrl/sync"]

/-- `write` from src/filesystem.js (lines 393-470): an ordered chain of
control-file handlers, each decoding and trimming the buffer and returning
`length`; any other path throws EROFS.  `buf` is the UTF-8 decoding of the
first `length` bytes of the buffer. -/
def writeJs (st : CtrlState) (path : String) (buf : String) (length : Nat) :
    Except FsErr (Nat × CtrlState) :=
  if path = "/.ctrl/download" then
    let content := jsTrim buf
    if content ≠ "" then .ok (length, { st with queue := queueDownload st.queue content })
    else .ok (length, st)
  else if path = "/.ctrl/cache" then
    let content := jsTrim buf
    if content = "clear" then .ok (length, { st with cacheCleared := true })
    else .ok (length, st)
  else if path = "/.ctrl/favorite" then
    let content := jsTrim buf
    if content ≠ "" then
      .ok (length, { st with favorites := addIfAbsent st.favorites content })
    else .ok (length, st)
  else if path = "/.ctrl/unfavorite" then
    let content := jsTrim buf
    if content ≠ "" then .ok (length, { st with favorites := st.favorites.erase content })
    else .ok (length, st)
  else if path = "/.ctrl/add-download" then
    let content := jsTrim buf
    if content ≠ "" then
      .ok (length, { st with downloads := addIfAbsent st.downloads content })
    else .ok (length, st)
  else if path = "/.ctrl/remove-download" then
    let content := jsTrim buf
    if content ≠ "" then .ok (length, { st with downloads := st.downloads.erase content })
    else .ok (length, st)
  else if path = "/.ctrl/sync" then
    let content := jsTrim buf
    if content ≠ "" then
      match splitSpace2 content with
      | (some a, some b) =>
        if a ≠ "" ∧ b ≠ "" then .ok (length, { st with syncs := st.syncs ++ [(a, b)] })
        else .ok (length, st)
      | _ => .ok (length, st)
    else .ok (length, st)
  else .error .erofs

/-! ## Download playlist (src/download.ts, downloadChannel and
createLocalPlaylist) -/

def isAudioFile (f : String) : Bool :=
  strEndsWith f ".mp3" || strEndsWith f ".opus" || strEndsWith f ".m4a" || strEndsWith f ".webm"

def containsSeq (sub : List Char) : List Char → Bool
  | [] => sub.isEmpty
  | a :: as => sub.isPrefixOf (a :: as) || containsSeq sub as

/-- `s.includes(sub)`. -/
def jsIncludes (s sub : String) : Bool := containsSeq sub.data s.data

/-- `createLocalPlaylist` from src/download.ts (lines 656-682), as a function
of the names found in the directory it is handed and the channel's tracks in
catalog (unreversed) order. -/
def createLocalPlaylist (files : List String) (tracks : List Track) : String :=
  let audioFiles := files.filter isAudioFile
  tracks.foldl
    (fun acc t =>
      let title := jsOr t.title "Untitled"
      let acc2 := acc ++ "#EXTINF:-1," ++ title ++ "\n"
      match audioFiles.find? (fun f => jsIncludes f (sanitizeFilename title)) with
      | some f => acc2 ++ f ++ "\n"
      | none => acc2)
    "#EXTM3U\n"

def channelDirSegs (downloadDir slug : String) : List String := [downloadDir, slug]

def tracksDirSegs (downloadDir slug : String) : List String :=
  channelDirSegs downloadDir slug ++ ["tracks"]

/-- Where `downloadChannel` writes the playlist: `createLocalPlaylist` is
called with `tracksDir` (download.ts line 328) and joins `"playlist.m3u"`
onto the directory it was handed (line 680). -/
def playlistWritePath (downloadDir slug : String) : List String :=
  tracksDirSegs downloadDir slug ++ ["playlist.m3u"]

/-- The playlist effect of a completed download job: with an empty track list
the job returns before the playlist step; otherwise it writes a playlist
computed from the `{slug}/tracks` directory listing at playlist time. -/
def downloadJobPlaylist (downloadDir slug : String) (tracks : List Track)
    (filesInTracksDir : List String) : Option (List String × String) :=
  match tracks with
  | [] => none
  | _ => some (playlistWritePath downloadDir slug,
      createLocalPlaylist filesInTracksDir tracks)

/-- The claim's description of the playlist content: `#EXTM3U`, then per
track in catalog order an EXTINF line followed by the first audio filename
(extension .mp3/.opus/.m4a/.webm) containing the sanitized title, when one
exists. -/
def joinAll : List String → String
  | [] => ""
  | s :: rest => s ++ joinAll rest

/-- The per-track block of the claim's playlist description: an EXTINF line
followed by the first audio filename containing the sanitized title, when one
exists. -/
def playlistLine (files : List String) (t : Track) : String :=
  let title := jsOr t.title "Untitled"
  "#EXTINF:-1," ++ title ++ "\n" ++
    (match files.find? (fun f => isAudioFile f && jsIncludes f (sanitizeFilename title)) with
     | some f => f ++ "\n"
     | none => "")

/-- The claim's description of the playlist content: `#EXTM3U`, then the
per-track blocks in catalog (unreversed) order. -/
def playlistSpecContent (files : List String) (tracks : List Track) : String :=
  "#EXTM3U\n" ++ joinAll (tracks.map (playlistLine files))

theorem find?_filter_eq {p q : String → Bool} :
    ∀ l : List String, (l.filter p).find? q = l.find? fun a => p a && q a := by
  intro l
  induction l with
  | nil => rfl
  | cons x xs ih =>
    by_cases hp : p x <;> by_cases hq : q x <;>
      simp [List.filter_cons, List.find?, hp, hq, ih]

theorem foldl_append_eq_joinAll (g : Track → String) :
    ∀ (l : List Track) (init : String),
      l.foldl (fun acc t => acc ++ g t) init = init ++ joinAll (l.map g) := by
  intro l
  induction l with
  | nil => intro init; simp [joinAll]
  | cons t ts ih =>
    intro init
    simp only [List.foldl_cons, List.map_cons, joinAll, ih (init ++ g t),
      String.append_assoc]

theorem createLocalPlaylist_eq_spec (files : List String) (tracks : List Track) :
    createLocalPlaylist files tracks = playlistSpecContent files tracks := by
  unfold createLocalPlaylist playlistSpecContent
  dsimp only
  have hfun : (fun (acc : String) (t : Track) =>
      let title := jsOr t.title "Untitled"
      let acc2 := acc ++ "#EXTINF:-1," ++ title ++ "\n"
      match (files.filter isAudioFile).find?
          (fun f => jsIncludes f (sanitizeFilename title)) with
      | some f => acc2 ++ f ++ "\n"
      | none => acc2) =
      fun acc t => acc ++ playlistLine files t := by
    funext acc t
    dsimp only
    rw [find?_filter_eq files]
    cases hfind : files.find?
        (fun f => isAudioFile f && jsIncludes f (sanitizeFilename (jsOr t.title "Untitled"))) <;>
      simp [playlistLine, hfind, String.append_assoc]
  rw [hfun]
  exact foldl_append_eq_joinAll (playlistLine files) tracks "#EXTM3U\n"

/-! ## Claim C3 (write semantics), C8 (playlist), C10 (open) -/

deriving instance DecidableEq for Except

/-- C3 counterexample: src/filesystem.js `write` accepts `/.ctrl/favorite` —
a path other than the designated download control file — and mutates the
favorites list instead of failing with EROFS. -/
theorem writeJs_noctrl_cex :
    writeJs ⟨[], [], [], false, []⟩ "/.ctrl/favorite" "oskar" 5 =
      .ok (5, ⟨[], ["oskar"], [], false, []⟩) := by decide

/-- C3 (corrected): writes to any path outside the seven `/.ctrl/` control
files fail with EROFS; writing a buffer whose trim is a non-empty slug to
`/.ctrl/download` returns the write length and enqueues the slug with
dedup — a fresh slug ends up in the queue exactly once, and re-writing the
same slug leaves the queue unchanged.  (In src/filesystem.ts every write,
the control file included, fails with EROFS.) -/
theorem writeJs_ctrl_semantics :
    (∀ (st : CtrlState) (path buf : String) (len : Nat), path ∉ ctrlPaths →
        writeJs st path buf len = .error .erofs) ∧
      (∀ (st : CtrlState) (buf : String) (len : Nat), jsTrim buf ≠ "" →
          writeJs st "/.ctrl/download" buf len =
            .ok (len, { st with queue := queueDownload st.queue (jsTrim buf) })) ∧
        (∀ (q : List String) (slug : String), slug ∉ q →
            (queueDownload q slug).count slug = 1) ∧
          (∀ (q : List String) (slug : String),
              queueDownload (queueDownload q slug) slug = queueDownload q slug) ∧
            ∀ (path buf : String) (len : Nat), write path buf len = .error .erofs := by
  refine ⟨?_, ?_, ?_, ?_, fun _ _ _ => rfl⟩
  · intro st path buf len h
    simp only [ctrlPaths, List.mem_cons, List.not_mem_nil, or_false, not_or] at h
    obtain ⟨h1, h2, h3, h4, h5, h6, h7⟩ := h
    simp [writeJs, h1, h2, h3, h4, h5, h6, h7]
  · intro st buf len h
    simp [writeJs, h]
  · intro q slug h
    have h1 : queueDownload q slug = q ++ [slug] := by simp [queueDownload, h]
    rw [h1]
    simp [List.count_eq_zero.mpr h]
  · intro q slug
    by_cases hm : slug ∈ q
    · have h1 : queueDownload q slug = q := by simp [queueDownload, hm]
      rw [h1]
      exact h1
    · have h1 : queueDownload q slug = q ++ [slug] := by simp [queueDownload, hm]
      rw [h1]
      have h2 : slug ∈ q ++ [slug] := by simp
      simp [queueDownload, h2]

/-- C3 witness. -/
theorem writeJs_ctrl_semantics_witness :
    ("/x" ∉ ctrlPaths ∧
        writeJs ⟨[], [], [], false, []⟩ "/x" "a" 1 = .error .erofs) ∧
      (jsTrim " oskar " ≠ "" ∧
          writeJs ⟨["ko002"], [], [], false, []⟩ "/.ctrl/download" " oskar " 7 =
            .ok (7, ⟨["ko002", "oskar"], [], [], false, []⟩)) ∧
        ("oskar" ∉ (["ko002"] : List String) ∧
            (queueDownload ["ko002"] "oskar").count "oskar" = 1) ∧
          queueDownload (queueDownload ["ko002"] "oskar") "oskar" =
            queueDownload ["ko002"] "oskar" := by
  refine ⟨⟨by decide, writeJs_ctrl_semantics.1 _ "/x" "a" 1 (by decide)⟩,
    ⟨by decide, ?_⟩,
    ⟨by decide, writeJs_ctrl_semantics.2.2.1 ["ko002"] "oskar" (by decide)⟩,
    writeJs_ctrl_semantics.2.2.2.1 ["ko002"] "oskar"⟩
  have h := writeJs_ctrl_semantics.2.1 ⟨["ko002"], [], [], false, []⟩ " oskar " 7 (by decide)
  rw [h]
  decide

/-- C8 counterexample: the playlist is not written at
`{download_root}/{slug}/playlist.m3u`; `downloadChannel` hands the `tracks`
subdirectory to `createLocalPlaylist`, which joins the playlist name onto it. -/
theorem playlist_path_cex :
    playlistWritePath "root" "oskar" ≠ ["root", "oskar", "playlist.m3u"] := by decide

/-- C8 (corrected): after a download job for a channel with a non-empty track
list, the playlist is written at `{download_root}/{slug}/tracks/playlist.m3u`;
its content begins with `#EXTM3U` and contains, for each track in original
catalog order, `#EXTINF:-1,{title}` followed by the first audio filename
(.mp3/.opus/.m4a/.webm) containing `sanitize(title)`, when one exists. -/
theorem downloadJob_playlist_effect (downloadDir slug : String) (tracks : List Track)
    (files : List String) (hne : tracks ≠ []) :
    downloadJobPlaylist downloadDir slug tracks files =
      some ([downloadDir, slug, "tracks", "playlist.m3u"],
        playlistSpecContent files tracks) := by
  cases tracks with
  | nil => exact absurd rfl hne
  | cons t ts =>
    show some (playlistWritePath downloadDir slug, createLocalPlaylist files (t :: ts)) = _
    rw [createLocalPlaylist_eq_spec]
    rfl

/-- C8 witness. -/
theorem downloadJob_playlist_witness :
    downloadJobPlaylist "d" "s" [{ title := some "Song One" }]
        ["song-one [x].mp3", "song-one.txt"] =
      some (["d", "s", "tracks", "playlist.m3u"],
        "#EXTM3U\n#EXTINF:-1,Song One\nsong-one [x].mp3\n") := by
  rw [downloadJob_playlist_effect "d" "s" _ _ (List.cons_ne_nil _ _)]
  decide

/-- C10 (confirmed): `open` succeeds with file descriptor 0 for every path
and flags value — including paths that classify to no node and stems with no
matching record — and never reports an error such as ENOENT or EROFS. -/
theorem open_always_ok (path : String) (flags : Nat) :
    openFs path flags = .ok 0 ∧ ∀ e : FsErr, openFs path flags ≠ .error e :=
  ⟨rfl, fun _ h => Except.noConfusion h⟩

/-! ## Structural lemmas for the attribute/listing producers -/

theorem structLookup_some {p : String} {e : StructEntry} (h : structLookup p = some e) :
    (parseParts p).length ≤ 1 ∧
      (e = ⟨.dir, 0o755, none⟩ ∨ (e = ⟨.file, 0o444, some ""⟩ ∧ p = "/HELP.txt")) := by
  unfold structLookup at h
  split at h
  · rename_i hp; cases h; subst hp; exact ⟨by decide, Or.inl rfl⟩
  · split at h
    · rename_i hp; cases h; subst hp; exact ⟨by decide, Or.inr ⟨rfl, rfl⟩⟩
    · split at h
      · rename_i hp; cases h; subst hp; exact ⟨by decide, Or.inl rfl⟩
      · split at h
        · rename_i hp; cases h; subst hp; exact ⟨by decide, Or.inl rfl⟩
        · split at h
          · rename_i hp; cases h; subst hp; exact ⟨by decide, Or.inl rfl⟩
          · cases h

theorem structLookup_none_of_parts {p : String} (h : 2 ≤ (parseParts p).length) :
    structLookup p = none := by
  cases hq : structLookup p with
  | none => rfl
  | some e =>
    have := (structLookup_some hq).1
    omega

theorem path_ne_of_parts {p q : String} (h : 2 ≤ (parseParts p).length)
    (hq : (parseParts q).length ≤ 1) : p ≠ q := by
  intro hc
  subst hc
  omega

theorem createStat_size (env : Env) (o : StatOptions) : (createStat env o).size = o.size := rfl

theorem createStat_mtime (env : Env) (o : StatOptions) :
    (createStat env o).mtime = getTimestamp env o.mtime := rfl

theorem createStat_atime (env : Env) (o : StatOptions) :
    (createStat env o).atime = getTimestamp env o.atime := rfl

theorem createStat_ctime (env : Env) (o : StatOptions) :
    (createStat env o).ctime = getTimestamp env o.ctime := rfl

theorem createStat_mode (env : Env) (o : StatOptions) : (createStat env o).mode =
    (if o.mode &&& S_IFDIR = 0 ∧ o.mode &&& S_IFREG = 0 then
      if o.isDir ∨ o.mode &&& 0o111 = 0o111 then o.mode ||| S_IFDIR
      else o.mode ||| S_IFREG
    else o.mode) := rfl

theorem createStat_mode_dir (env : Env) (o : StatOptions) (hm : o.mode = 0o755)
    (hd : o.isDir = true) : (createStat env o).mode = 0o40755 := by
  rw [createStat_mode, hm, hd]
  decide

theorem createStat_mode_file (env : Env) (o : StatOptions) (hm : o.mode = 0o444)
    (hd : o.isDir = false) : (createStat env o).mode = 0o100444 := by
  rw [createStat_mode, hm, hd]
  decide

theorem getFileContent_trackfile {env : Env} {cat : Catalog} {path slug f : String}
    {t : Track} (hp : parseParts path = ["channels", slug, "tracks", f])
    (hjson : f ≠ "tracks.json") (hf : strEndsWith f ".txt" = true)
    (hr : resolveTrack (cat.tracksFor slug) (stripTxt f) = some t) :
    getFileContent env cat path = .ok (formatTrackContent env t) := by
  have hne : path ≠ "/HELP.txt" :=
    path_ne_of_parts (by rw [hp]; simp) (by decide)
  unfold getFileContent
  rw [if_neg hne, hp]
  split
  · rename_i heq
    exfalso
    simp at heq
  · rename_i heq
    exfalso
    simp at heq
  · rename_i heq
    exfalso
    simp at heq
  · rename_i ch f2 tail heq
    simp only [List.cons.injEq] at heq
    obtain ⟨-, h1, -, h2, -⟩ := heq
    subst h1
    subst h2
    rw [if_neg hjson, if_pos hf, hr]
  · rename_i hcatch
    exact absurd rfl (hcatch slug f [])

theorem trackfile_getattr {env : Env} {cat : Catalog} {path slug f : String}
    {t : Track} (hp : parseParts path = ["channels", slug, "tracks", f])
    (hjson : f ≠ "tracks.json") (hf : strEndsWith f ".txt" = true)
    (hr : resolveTrack (cat.tracksFor slug) (stripTxt f) = some t) :
    getattr env cat path = .ok (createStat env
      { mode := 0o444, size := (formatTrackContent env t).utf8ByteSize, isDir := false
        mtime := createSafeDate env t.created_at
        ctime := createSafeDate env t.updated_at
        atime := createSafeDate env t.updated_at }) := by
  unfold getattr
  rw [hp]
  dsimp only
  rw [if_neg (by decide)]
  unfold getattrNR
  rw [structLookup_none_of_parts (by rw [hp]; simp)]
  dsimp only
  rw [hp]
  split
  · rename_i heq
    exfalso
    simp at heq
  · rename_i heq
    exfalso
    simp at heq
  · rename_i heq
    exfalso
    simp at heq
  · rename_i heq
    exfalso
    simp at heq
  · rename_i heq
    exfalso
    simp at heq
  · rename_i ch f2 heq
    simp only [List.cons.injEq] at heq
    obtain ⟨-, h1, -, h2, -⟩ := heq
    subst h1
    subst h2
    rw [if_neg hjson, if_pos hf, hr]
    dsimp only
    rw [getFileContent_trackfile hp hjson hf hr]
    rfl
  · rename_i heq
    exfalso
    simp at heq
  · rename_i heq
    exfalso
    simp at heq
  · rename_i heq
    exfalso
    simp at heq
  · rename_i h1 h2 h3 h4 h5 h6 h7 h8 h9
    exact absurd rfl (h6 slug f)

/-- The src/filesystem.ts half of C2: getattr on a projected track text file
returns `mtime = seconds(created_at)`, `ctime = seconds(updated_at)` and
`atime = seconds(updated_at)` whenever both date strings parse (the
`createSafeDate` hypotheses), together with mode `S_IFREG | 0o444`. -/
theorem trackfile_times (env : Env) (cat : Catalog) (path slug f : String)
    (t : Track) (x y : Int)
    (hp : parseParts path = ["channels", slug, "tracks", f])
    (hf : strEndsWith f ".txt" = true)
    (hr : resolveTrack (cat.tracksFor slug) (stripTxt f) = some t)
    (hc : createSafeDate env t.created_at = some x)
    (hu : createSafeDate env t.updated_at = some y) :
    ∃ s, getattr env cat path = .ok s ∧ s.mtime = (x : Rat) / 1000 ∧
      s.ctime = (y : Rat) / 1000 ∧ s.atime = (y : Rat) / 1000 ∧ s.mode = 0o100444 := by
  have hjson : f ≠ "tracks.json" := by
    rintro rfl
    exact absurd hf (by decide)
  refine ⟨_, trackfile_getattr hp hjson hf hr, ?_, ?_, ?_, ?_⟩
  · rw [createStat_mtime]
    dsimp only
    rw [hc]
    rfl
  · rw [createStat_ctime]
    dsimp only
    rw [hu]
    rfl
  · rw [createStat_atime]
    dsimp only
    rw [hu]
    rfl
  · exact createStat_mode_file env _ rfl rfl

/-! ## Witness fixtures: a tiny snapshot each witness evaluates. -/

def envW : Env :=
  { parseDate := fun s =>
      if s = "2023-01-01" then some 1000 else if s = "2023-06-15" then some 3000 else none
    nowMs := 777000
    localeString := fun s => s
    localeDate := fun s => s
    supabaseUrl := "https://sb"
    uid := 0
    gid := 0 }

def trackW : Track :=
  { title := some "Song One"
    url := some "u"
    created_at := some "2023-01-01"
    updated_at := some "2023-06-15" }

def trackNoTags : Track := { title := some "No Tags", url := some "v" }

def catW : Catalog :=
  { channels := [{ slug := "c" }]
    tracksFor := fun s => if s = "c" then [trackW] else []
    favorites := []
    downloads := [] }

def catU : Catalog :=
  { channels := [{ slug := "c" }]
    tracksFor := fun s => if s = "c" then [trackNoTags] else []
    favorites := []
    downloads := [] }

/-- Concrete instance of `trackfile_times` on the witness snapshot. -/
theorem trackfile_times_witness :
    ∃ s, getattr envW catW "/channels/c/tracks/song-one.txt" = .ok s ∧
      s.mtime = (1000 : Rat) / 1000 ∧ s.ctime = (3000 : Rat) / 1000 ∧
      s.atime = (3000 : Rat) / 1000 ∧ s.mode = 0o100444 :=
  trackfile_times envW catW "/channels/c/tracks/song-one.txt" "c" "song-one.txt"
    trackW 1000 3000 (by decide) (by decide) (by decide) (by decide) (by decide)

/-! ## The stat of src/filesystem.js (the draft implementation): its track-file
branch assigns `mtime` from `updated_at` and `ctime` from `created_at`, the
reverse of src/filesystem.ts. -/

/-- A stat as the `stat` helper of src/filesystem.js builds it.  A time field
holds seconds as an exact rational; `none` stands for the `NaN` that
`getTime()` yields on an `Invalid Date` (a truthy but unparseable string). -/
structure JsStat where
  mtime : Option Rat
  atime : Option Rat
  ctime : Option Rat
  nlink : Nat
  size : Nat
  mode : Nat
  uid : Nat
  gid : Nat
deriving DecidableEq

/-- The options object passed to `stat` in src/filesystem.js.  A time option
is `none` for `undefined`, `some d` for a `Date` whose `getTime()` is `d`
(`some none` being an `Invalid Date`). -/
structure JsStatOptions where
  mode : Nat := 0
  size : Nat := 0
  isDir : Bool := false
  mtime : Option (Option Int) := none
  atime : Option (Option Int) := none
  ctime : Option (Option Int) := none

/-- `options.mtime ? options.mtime.getTime() / 1000 : now` from the `stat`
helper of src/filesystem.js: a `Date` object is truthy even when invalid, so
only `undefined` falls back to the wall clock. -/
def jsStatTime (env : Env) (d : Option (Option Int)) : Option Rat :=
  match d with
  | some (some ms) => some ((ms : Rat) / 1000)
  | some none => none
  | none => some ((env.nowMs : Rat) / 1000)

/-- `stat` from src/filesystem.js (lines 24-49): the same file-type-bit
fixup as createStat, with the `Date`-or-`undefined` time options above. -/
def statJs (env : Env) (o : JsStatOptions) : JsStat :=
  let mode :=
    if o.mode &&& S_IFDIR = 0 ∧ o.mode &&& S_IFREG = 0 then
      if o.isDir ∨ o.mode &&& 0o111 = 0o111 then o.mode ||| S_IFDIR
      else o.mode ||| S_IFREG
    else o.mode
  { mtime := jsStatTime env o.mtime
    atime := jsStatTime env o.atime
    ctime := jsStatTime env o.ctime
    nlink := 1
    size := o.size
    mode := mode
    uid := env.uid
    gid := env.gid }

/-- `track.updated_at ? new Date(track.updated_at) : undefined` from the
track-file branch of src/filesystem.js getattr: a truthy string becomes a
`Date` whose `getTime()` is its parse (`NaN` when unparseable), a falsy one
stays `undefined`. -/
def jsDateOpt (env : Env) (d : Option String) : Option (Option Int) :=
  if jsTruthy d then some (env.parseDate (d.getD "")) else none

/-- The track-files branch of src/filesystem.js getattr (lines 158-192,
guarded by `parsed.subdir === 'tracks' && parsed.file && !parsed.file2`):
`tracks.json` gets a content-sized stat with wall-clock times; a `.txt` file
resolving to a track gets mode 0o444, the formatted content's byte length,
and `mtime` from `updated_at`, `ctime` from `created_at`, `atime` from
`updated_at` — the reverse of the src/filesystem.ts assignment.  `none` is
the branch falling through (ENOENT at the end of the handler). -/
def getattrJsTrackfile (env : Env) (cat : Catalog) (ch f : String) :
    Option JsStat :=
  if f = "tracks.json" then
    some (statJs env
      { mode := 0o444
        size := (tracksJson (cat.tracksFor ch).reverse).utf8ByteSize
        isDir := false })
  else if strEndsWith f ".txt" then
    match resolveTrack (cat.tracksFor ch) (stripTxt f) with
    | some track =>
      some (statJs env
        { mode := 0o444
          size := (formatTrackContent env track).utf8ByteSize
          isDir := false
          mtime := jsDateOpt env track.updated_at
          ctime := jsDateOpt env track.created_at
          atime := jsDateOpt env track.updated_at })
    | none => none
  else none

theorem statJs_mtime (env : Env) (o : JsStatOptions) :
    (statJs env o).mtime = jsStatTime env o.mtime := rfl

theorem statJs_atime (env : Env) (o : JsStatOptions) :
    (statJs env o).atime = jsStatTime env o.atime := rfl

theorem statJs_ctime (env : Env) (o : JsStatOptions) :
    (statJs env o).ctime = jsStatTime env o.ctime := rfl

theorem statJs_mode (env : Env) (o : JsStatOptions) : (statJs env o).mode =
    (if o.mode &&& S_IFDIR = 0 ∧ o.mode &&& S_IFREG = 0 then
      if o.isDir ∨ o.mode &&& 0o111 = 0o111 then o.mode ||| S_IFDIR
      else o.mode ||| S_IFREG
    else o.mode) := rfl

theorem statJs_mode_file (env : Env) (o : JsStatOptions) (hm : o.mode = 0o444)
    (hd : o.isDir = false) : (statJs env o).mode = 0o100444 := by
  rw [statJs_mode, hm, hd]
  decide

theorem jsDateOpt_of_safe {env : Env} {d : Option String} {x : Int}
    (h : createSafeDate env d = some x) : jsDateOpt env d = some (some x) := by
  cases d with
  | none => exact Option.noConfusion h
  | some s =>
    unfold createSafeDate at h
    dsimp only at h
    by_cases hs : s = ""
    · rw [if_neg (by simp [hs])] at h
      exact Option.noConfusion h
    · rw [if_pos hs] at h
      unfold jsDateOpt
      rw [if_pos (by simp [jsTruthy, hs]), Option.getD_some, h]

/-- C2 counterexample: the track-file branch of src/filesystem.js getattr
assigns the timestamps in reverse.  On a track with `created_at` parsing to
1000 ms and `updated_at` to 3000 ms, the returned stat has
`mtime = seconds(updated_at) = 3`, not `seconds(created_at) = 1`, refuting
"mtime equal to seconds(created_at)" for that cited implementation. -/
theorem trackfile_times_js_cex :
    ∃ j, getattrJsTrackfile envW catW "c" "song-one.txt" = some j ∧
      j.mtime = some (((3000 : Int) : Rat) / 1000) ∧
      j.ctime = some (((1000 : Int) : Rat) / 1000) ∧
      (((3000 : Int) : Rat) / 1000) ≠ (((1000 : Int) : Rat) / 1000) := by
  refine ⟨_, rfl, rfl, rfl, by norm_num⟩

/-- C2 (corrected): for a track whose `created_at` and `updated_at` both
parse as valid dates, the two cited implementations disagree on the
projected track text file's timestamps: src/filesystem.ts getattr returns
`mtime = seconds(created_at)` and `ctime = atime = seconds(updated_at)`,
while the track-file branch of src/filesystem.js getattr returns the
reverse, `mtime = atime = seconds(updated_at)` and
`ctime = seconds(created_at)`.  Both return mode `S_IFREG | 0o444`. -/
theorem trackfile_times_impls (env : Env) (cat : Catalog) (path slug f : String)
    (t : Track) (x y : Int)
    (hp : parseParts path = ["channels", slug, "tracks", f])
    (hf : strEndsWith f ".txt" = true)
    (hr : resolveTrack (cat.tracksFor slug) (stripTxt f) = some t)
    (hc : createSafeDate env t.created_at = some x)
    (hu : createSafeDate env t.updated_at = some y) :
    (∃ s, getattr env cat path = .ok s ∧ s.mtime = (x : Rat) / 1000 ∧
      s.ctime = (y : Rat) / 1000 ∧ s.atime = (y : Rat) / 1000 ∧
      s.mode = 0o100444) ∧
    (∃ j, getattrJsTrackfile env cat slug f = some j ∧
      j.mtime = some ((y : Rat) / 1000) ∧ j.ctime = some ((x : Rat) / 1000) ∧
      j.atime = some ((y : Rat) / 1000) ∧ j.mode = 0o100444) := by
  refine ⟨trackfile_times env cat path slug f t x y hp hf hr hc hu, ?_⟩
  have hjson : f ≠ "tracks.json" := by
    rintro rfl
    exact absurd hf (by decide)
  have hjs : getattrJsTrackfile env cat slug f =
      some (statJs env
        { mode := 0o444
          size := (formatTrackContent env t).utf8ByteSize
          isDir := false
          mtime := jsDateOpt env t.updated_at
          ctime := jsDateOpt env t.created_at
          atime := jsDateOpt env t.updated_at }) := by
    unfold getattrJsTrackfile
    rw [if_neg hjson, if_pos hf, hr]
  refine ⟨_, hjs, ?_, ?_, ?_, ?_⟩
  · rw [statJs_mtime]
    dsimp only
    rw [jsDateOpt_of_safe hu]
    rfl
  · rw [statJs_ctime]
    dsimp only
    rw [jsDateOpt_of_safe hc]
    rfl
  · rw [statJs_atime]
    dsimp only
    rw [jsDateOpt_of_safe hu]
    rfl
  · exact statJs_mode_file env _ rfl rfl

/-- C2 witness. -/
theorem trackfile_times_impls_witness :
    (∃ s, getattr envW catW "/channels/c/tracks/song-one.txt" = .ok s ∧
      s.mtime = (1000 : Rat) / 1000 ∧ s.ctime = (3000 : Rat) / 1000 ∧
      s.atime = (3000 : Rat) / 1000 ∧ s.mode = 0o100444) ∧
    (∃ j, getattrJsTrackfile envW catW "c" "song-one.txt" = some j ∧
      j.mtime = some ((3000 : Rat) / 1000) ∧
      j.ctime = some ((1000 : Rat) / 1000) ∧
      j.atime = some ((3000 : Rat) / 1000) ∧ j.mode = 0o100444) :=
  trackfile_times_impls envW catW "/channels/c/tracks/song-one.txt" "c"
    "song-one.txt" trackW 1000 3000 (by decide) (by decide) (by decide)
    (by decide) (by decide)

/-! ## Tag-directory lemmas (C9) -/

theorem tagDirIncludes_empty {tagName : String} {t : Track}
    (h : extractTagsFromTrack t = []) :
    tagDirIncludes tagName t = true ↔ tagName = "untitled" := by
  unfold tagDirIncludes
  dsimp only
  rw [h]
  show List.contains ["untitled"] tagName = true ↔ tagName = "untitled"
  simp [eq_comm]

theorem tagListIncludes_empty {t : Track} (h : extractTagsFromTrack t = []) :
    tagListIncludes "untagged" t = true := by
  unfold tagListIncludes
  dsimp only
  rw [h]
  decide

theorem tagStep_empty {t : Track} (h : extractTagsFromTrack t = [])
    (acc : List String) : tagStep acc t = jsSetAdd acc "untagged" := by
  unfold tagStep
  dsimp only
  rw [h]
  rfl

theorem foldl_tagStep_untagged {ts : List Track}
    (h : ∀ u ∈ ts, extractTagsFromTrack u = []) :
    List.foldl tagStep ["untagged"] ts = ["untagged"] := by
  induction ts with
  | nil => rfl
  | cons t ts ih =>
    rw [List.foldl_cons, tagStep_empty (h t (by simp))]
    have hj : jsSetAdd ["untagged"] "untagged" = ["untagged"] := by decide
    rw [hj]
    exact ih fun u hu => h u (by simp [hu])

theorem tagSetOfTracks_all_empty {tracks : List Track}
    (h : ∀ u ∈ tracks, extractTagsFromTrack u = []) (hne : tracks ≠ []) :
    tagSetOfTracks tracks = ["untagged"] := by
  cases tracks with
  | nil => exact absurd rfl hne
  | cons t ts =>
    unfold tagSetOfTracks
    rw [List.foldl_cons, tagStep_empty (h t (by simp))]
    have hj : jsSetAdd [] "untagged" = ["untagged"] := by decide
    rw [hj]
    exact foldl_tagStep_untagged fun u hu => h u (by simp [hu])

theorem filter_tagDirIncludes_empty {l : List Track}
    (h : ∀ u ∈ l, extractTagsFromTrack u = []) :
    l.filter (tagDirIncludes "untagged") = [] := by
  rw [List.filter_eq_nil]
  intro u hu hc
  exact absurd ((tagDirIncludes_empty (h u hu)).mp hc) (by decide)

theorem filter_tagListIncludes_all {l : List Track}
    (h : ∀ u ∈ l, extractTagsFromTrack u = []) :
    l.filter (tagListIncludes "untagged") = l :=
  List.filter_eq_self.mpr fun u hu => tagListIncludes_empty (h u hu)

/-- C9 (confirmed): in getattr of a tag directory the empty-tag fallback name
is the literal `untitled`, not `untagged`: a track with an empty derived tag
set passes the aggregation filter exactly for the requested tag `untitled`.
Consequently, for a channel all of whose tracks have empty derived tag sets,
getattr of `tags/untagged` falls back to wall-clock timestamps (`nowMs`),
even though readdir lists `untagged` and places every track under it. -/
theorem tags_untitled_quirk (env : Env) (cat : Catalog) (ch p3 p4 tagName : String)
    (t : Track) (ht : extractTagsFromTrack t = [])
    (hp3 : parseParts p3 = ["channels", ch, "tags"])
    (hp4 : parseParts p4 = ["channels", ch, "tags", "untagged"])
    (hraw : rawSixthFalsy p4 = true)
    (hall : ∀ u ∈ cat.tracksFor ch, extractTagsFromTrack u = [])
    (hne : cat.tracksFor ch ≠ []) :
    (tagDirIncludes tagName t = true ↔ tagName = "untitled") ∧
    (∃ s, getattr env cat p4 = .ok s ∧
      s.mtime = (env.nowMs : Rat) / 1000 ∧ s.ctime = (env.nowMs : Rat) / 1000 ∧
      s.atime = (env.nowMs : Rat) / 1000) ∧
    readdir env cat p3 = .ok [".", "..", "untagged"] ∧
    readdir env cat p4 =
      .ok ([".", ".."] ++ (cat.tracksFor ch).reverse.map trackFileName) := by
  refine ⟨tagDirIncludes_empty ht, ?_, ?_, ?_⟩
  · unfold getattr
    rw [hp4]
    dsimp only
    rw [if_neg (by decide)]
    unfold getattrNR
    rw [structLookup_none_of_parts (by rw [hp4]; simp)]
    dsimp only
    rw [hp4]
    split
    · rename_i heq
      exfalso
      simp at heq
    · rename_i heq
      exfalso
      simp at heq
    · rename_i heq
      exfalso
      simp at heq
    · rename_i ch2 tag2 heq
      simp only [List.cons.injEq] at heq
      obtain ⟨-, h1, -, h2, -⟩ := heq
      subst h1
      subst h2
      rw [filter_tagDirIncludes_empty hall]
      exact ⟨_, rfl, rfl, rfl, rfl⟩
    · rename_i heq
      exfalso
      simp at heq
    · rename_i heq
      exfalso
      simp at heq
    · rename_i heq
      exfalso
      simp at heq
    · rename_i heq
      exfalso
      simp at heq
    · rename_i heq
      exfalso
      simp at heq
    · rename_i h1 h2 h3 h4 h5 h6 h7 h8 h9
      exact absurd rfl (h4 ch "untagged")
  · unfold readdir
    rw [hp3]
    dsimp only
    rw [if_neg (by decide)]
    unfold readdirNR
    rw [if_neg (path_ne_of_parts (by rw [hp3]; simp) (by decide)),
      if_neg (path_ne_of_parts (by rw [hp3]; simp) (by decide)), hp3]
    split
    · rename_i heq
      exfalso
      simp at heq
    · rename_i heq
      exfalso
      simp at heq
    · rename_i ch2 heq
      simp only [List.cons.injEq] at heq
      obtain ⟨-, h1, -⟩ := heq
      subst h1
      rw [tagSetOfTracks_all_empty hall hne]
      rfl
    · rename_i heq
      exfalso
      simp at heq
    · rename_i h1 h2 h3 h4
      exact absurd rfl (h3 ch)
  · unfold readdir
    rw [hp4]
    dsimp only
    rw [if_neg (by decide)]
    unfold readdirNR
    rw [if_neg (path_ne_of_parts (by rw [hp4]; simp) (by decide)),
      if_neg (path_ne_of_parts (by rw [hp4]; simp) (by decide)), hp4]
    split
    · rename_i heq
      exfalso
      simp at heq
    · rename_i heq
      exfalso
      simp at heq
    · rename_i heq
      exfalso
      simp at heq
    · rename_i ch2 tag2 rest2 heq
      simp only [List.cons.injEq] at heq
      obtain ⟨-, h1, -, h2, -⟩ := heq
      subst h1
      subst h2
      rw [if_pos hraw,
        filter_tagListIncludes_all fun u hu => hall u (List.mem_reverse.mp hu)]
    · rename_i h1 h2 h3 h4
      exact absurd rfl (h4 ch "untagged" [])

/-- C9 witness. -/
theorem tags_untitled_quirk_witness :
    (tagDirIncludes "untagged" trackNoTags = true ↔ "untagged" = "untitled") ∧
    (∃ s, getattr envW catU "/channels/c/tags/untagged" = .ok s ∧
      s.mtime = (envW.nowMs : Rat) / 1000 ∧ s.ctime = (envW.nowMs : Rat) / 1000 ∧
      s.atime = (envW.nowMs : Rat) / 1000) ∧
    readdir envW catU "/channels/c/tags" = .ok [".", "..", "untagged"] ∧
    readdir envW catU "/channels/c/tags/untagged" =
      .ok ([".", ".."] ++ (catU.tracksFor "c").reverse.map trackFileName) :=
  tags_untitled_quirk envW catU "c" "/channels/c/tags" "/channels/c/tags/untagged"
    "untagged" trackNoTags (by decide) (by decide) (by decide) (by decide)
    (by decide) (by decide)

/-! ## JS Set and tag-collection lemmas (C7) -/

theorem mem_jsSetAdd {acc : List String} {y x : String} :
    x ∈ jsSetAdd acc y ↔ x ∈ acc ∨ x = y := by
  unfold jsSetAdd
  by_cases hc : y ∈ acc
  · rw [if_pos hc]
    exact ⟨Or.inl, fun h => h.elim id fun hxy => hxy ▸ hc⟩
  · rw [if_neg hc]
    simp

theorem nodup_jsSetAdd {acc : List String} {y : String} (h : acc.Nodup) :
    (jsSetAdd acc y).Nodup := by
  unfold jsSetAdd
  by_cases hc : y ∈ acc
  · rwa [if_pos hc]
  · rw [if_neg hc]
    simp [List.nodup_append, h, hc]

theorem mem_foldl_jsSetAdd (tags : List String) (acc : List String) (x : String) :
    x ∈ tags.foldl jsSetAdd acc ↔ x ∈ acc ∨ x ∈ tags := by
  induction tags generalizing acc with
  | nil => simp
  | cons a ts ih =>
    rw [List.foldl_cons, ih, mem_jsSetAdd]
    simp [List.mem_cons, or_assoc]

theorem nodup_foldl_jsSetAdd (tags : List String) {acc : List String}
    (h : acc.Nodup) : (tags.foldl jsSetAdd acc).Nodup := by
  induction tags generalizing acc with
  | nil => exact h
  | cons a ts ih =>
    rw [List.foldl_cons]
    exact ih (nodup_jsSetAdd h)

theorem mem_tagStep {acc : List String} {t : Track} {x : String} :
    x ∈ tagStep acc t ↔ x ∈ acc ∨ x ∈ extractTagsFromTrack t ∨
      (extractTagsFromTrack t = [] ∧ x = "untagged") := by
  unfold tagStep
  dsimp only
  by_cases hc : (extractTagsFromTrack t).length = 0
  · have he : extractTagsFromTrack t = [] := List.length_eq_zero.mp hc
    rw [if_pos hc, mem_jsSetAdd, he]
    simp
  · have he : extractTagsFromTrack t ≠ [] := fun h0 => hc (by rw [h0]; rfl)
    rw [if_neg hc, mem_foldl_jsSetAdd]
    simp [he]

theorem nodup_tagStep {acc : List String} {t : Track} (h : acc.Nodup) :
    (tagStep acc t).Nodup := by
  unfold tagStep
  dsimp only
  by_cases hc : (extractTagsFromTrack t).length = 0
  · rw [if_pos hc]
    exact nodup_jsSetAdd h
  · rw [if_neg hc]
    exact nodup_foldl_jsSetAdd _ h

theorem mem_foldl_tagStep (ts : List Track) (acc : List String) (x : String) :
    x ∈ ts.foldl tagStep acc ↔ x ∈ acc ∨
      ∃ t ∈ ts, x ∈ extractTagsFromTrack t ∨
        (extractTagsFromTrack t = [] ∧ x = "untagged") := by
  induction ts generalizing acc with
  | nil => simp
  | cons t ts ih =>
    rw [List.foldl_cons, ih, mem_tagStep]
    constructor
    · rintro ((h | h | h) | ⟨u, hu, h⟩)
      · exact Or.inl h
      · exact Or.inr ⟨t, by simp, Or.inl h⟩
      · exact Or.inr ⟨t, by simp, Or.inr h⟩
      · exact Or.inr ⟨u, by simp [hu], h⟩
    · rintro (h | ⟨u, hu, h⟩)
      · exact Or.inl (Or.inl h)
      · rcases List.mem_cons.mp hu with rfl | hu2
        · exact Or.inl (Or.inr h)
        · exact Or.inr ⟨u, hu2, h⟩

theorem nodup_tagSetOfTracks (ts : List Track) : (tagSetOfTracks ts).Nodup := by
  unfold tagSetOfTracks
  have haux : ∀ (l : List Track) (acc : List String), acc.Nodup →
      (l.foldl tagStep acc).Nodup := by
    intro l
    induction l with
    | nil => exact fun acc h => h
    | cons t ts ih =>
      intro acc h
      rw [List.foldl_cons]
      exact ih _ (nodup_tagStep h)
  exact haux _ _ List.nodup_nil

theorem mem_tagSetOfTracks {ts : List Track} {x : String} :
    x ∈ tagSetOfTracks ts ↔
      ∃ t ∈ ts, x ∈ extractTagsFromTrack t ∨
        (extractTagsFromTrack t = [] ∧ x = "untagged") := by
  unfold tagSetOfTracks
  rw [mem_foldl_tagStep]
  simp

instance : IsTotal String fun a b => a.data ≤ b.data :=
  ⟨fun a b => le_total a.data b.data⟩

instance : IsTrans String fun a b => a.data ≤ b.data :=
  ⟨fun _ _ _ => le_trans⟩

def trackHash : Track :=
  { title := some "T"
    url := some "u"
    description := some "#untagged" }

def catH : Catalog :=
  { channels := [{ slug := "c" }]
    tracksFor := fun s => if s = "c" then [trackHash] else []
    favorites := []
    downloads := [] }

/-- C7 counterexample: a channel whose single track carries the literal
hashtag `#untagged` in its description.  Every track has a non-empty derived
tag set, yet `untagged` appears in the tags listing (it is a member of the
union itself), so "`untagged` present iff some track has empty derived tags"
fails in the right-to-left direction. -/
theorem tags_untagged_iff_cex :
    readdir envW catH "/channels/c/tags" = .ok [".", "..", "untagged"] ∧
    ∀ t ∈ catH.tracksFor "c", extractTagsFromTrack t ≠ [] := by
  exact ⟨by decide, by decide⟩

/-- C7 (corrected): the tags listing is `.`, `..` followed by a sorted,
duplicate-free list whose members are exactly the union of the tracks'
derived tags together with `untagged` for each track whose derived tag set
is empty — `untagged` can therefore also enter through a literal `#untagged`
hashtag, not only through a track with empty derived tags. -/
theorem tags_listing_spec (env : Env) (cat : Catalog) (ch p : String)
    (hp : parseParts p = ["channels", ch, "tags"]) :
    ∃ l, readdir env cat p = .ok ([".", ".."] ++ l) ∧
      List.Sorted (fun a b => a.data ≤ b.data) l ∧ l.Nodup ∧
      ∀ x, x ∈ l ↔ ((∃ t ∈ cat.tracksFor ch, x ∈ extractTagsFromTrack t) ∨
        ((∃ t ∈ cat.tracksFor ch, extractTagsFromTrack t = []) ∧
          x = "untagged")) := by
  refine ⟨sortStrings (tagSetOfTracks (cat.tracksFor ch)), ?_, ?_, ?_, ?_⟩
  · unfold readdir
    rw [hp]
    dsimp only
    rw [if_neg (by decide)]
    unfold readdirNR
    rw [if_neg (path_ne_of_parts (by rw [hp]; simp) (by decide)),
      if_neg (path_ne_of_parts (by rw [hp]; simp) (by decide)), hp]
    split
    · rename_i heq
      exfalso
      simp at heq
    · rename_i heq
      exfalso
      simp at heq
    · rename_i ch2 heq
      simp only [List.cons.injEq] at heq
      obtain ⟨-, h1, -⟩ := heq
      subst h1
      rfl
    · rename_i heq
      exfalso
      simp at heq
    · rename_i h1 h2 h3 h4
      exact absurd rfl (h3 ch)
  · exact List.sorted_insertionSort _ _
  · exact (List.perm_insertionSort _ _).nodup_iff.mpr (nodup_tagSetOfTracks _)
  · intro x
    unfold sortStrings
    rw [(List.perm_insertionSort _ _).mem_iff, mem_tagSetOfTracks]
    constructor
    · rintro ⟨t, ht, hx | ⟨he, hx⟩⟩
      · exact Or.inl ⟨t, ht, hx⟩
      · exact Or.inr ⟨⟨t, ht, he⟩, hx⟩
    · rintro (⟨t, ht, hx⟩ | ⟨⟨t, ht, he⟩, hx⟩)
      · exact ⟨t, ht, Or.inl hx⟩
      · exact ⟨t, ht, Or.inr ⟨he, hx⟩⟩

/-- C7 witness. -/
theorem tags_listing_spec_witness :
    ∃ l, readdir envW catW "/channels/c/tags" = .ok ([".", ".."] ++ l) ∧
      List.Sorted (fun a b => a.data ≤ b.data) l ∧ l.Nodup ∧
      ∀ x, x ∈ l ↔ ((∃ t ∈ catW.tracksFor "c", x ∈ extractTagsFromTrack t) ∨
        ((∃ t ∈ catW.tracksFor "c", extractTagsFromTrack t = []) ∧
          x = "untagged")) :=
  tags_listing_spec envW catW "c" "/channels/c/tags" (by decide)

/-! ## Size/content agreement (C1) -/

theorem dirStat_not_reg (env : Env) (o : StatOptions) (hm : o.mode = 0o755)
    (hd : o.isDir = true) : (createStat env o).mode &&& S_IFREG = 0 := by
  rw [createStat_mode_dir env o hm hd]
  decide

theorem trackAggDirStat_not_reg {env : Env} {cat : Catalog} {ch : String}
    {s : Stat} (h : trackAggDirStat env cat ch = .ok s) :
    s.mode &&& S_IFREG = 0 := by
  unfold trackAggDirStat at h
  dsimp only at h
  split at h
  · injection h with h2
    subst h2
    exact dirStat_not_reg env _ rfl rfl
  · split at h
    · exact Except.noConfusion h
    · injection h with h2
      subst h2
      exact dirStat_not_reg env _ rfl rfl

theorem getattrNR_two_seg_dir {env : Env} {cat : Catalog} {path root ch : String}
    {s : Stat} (hpp : parseParts path = [root, ch])
    (h : getattrNR env cat path = .ok s) : s.mode &&& S_IFREG = 0 := by
  unfold getattrNR at h
  rw [structLookup_none_of_parts (by rw [hpp]; simp)] at h
  dsimp only at h
  rw [hpp] at h
  split at h
  · split at h
    · exact Except.noConfusion h
    · injection h with h2
      subst h2
      exact dirStat_not_reg env _ rfl rfl
  · rename_i heq
    exfalso
    simp at heq
  · rename_i heq
    exfalso
    simp at heq
  · rename_i heq
    exfalso
    simp at heq
  · rename_i heq
    exfalso
    simp at heq
  · rename_i heq
    exfalso
    simp at heq
  · rename_i heq
    exfalso
    simp at heq
  · injection h with h2
    subst h2
    exact dirStat_not_reg env _ rfl rfl
  · injection h with h2
    subst h2
    exact dirStat_not_reg env _ rfl rfl
  · exact Except.noConfusion h

theorem getattrNR_file_size {env : Env} {cat : Catalog} {path : String} {s : Stat}
    (h : getattrNR env cat path = .ok s) (hreg : s.mode &&& S_IFREG ≠ 0) :
    ∃ c, getFileContent env cat path = .ok c ∧ s.size = c.utf8ByteSize := by
  unfold getattrNR at h
  cases hq : structLookup path with
  | some e =>
    rw [hq] at h
    dsimp only at h
    rcases structLookup_some hq with ⟨-, he | ⟨he, hpath⟩⟩
    · subst he
      dsimp only at h
      injection h with h2
      subst h2
      exact absurd (dirStat_not_reg env _ rfl rfl) hreg
    · subst he
      subst hpath
      dsimp only at h
      rw [if_pos (Or.inl rfl)] at h
      have hg : getFileContent env cat "/HELP.txt" = .ok helpText := by
        unfold getFileContent
        rw [if_pos rfl]
      rw [hg] at h
      simp only [Except.map] at h
      injection h with h2
      subst h2
      exact ⟨helpText, hg, (createStat_size env _).symm ▸ rfl⟩
  | none =>
    rw [hq] at h
    dsimp only at h
    split at h
    · split at h
      · exact Except.noConfusion h
      · injection h with h2
        subst h2
        exact absurd (dirStat_not_reg env _ rfl rfl) hreg
    · exact absurd (trackAggDirStat_not_reg h) hreg
    · exact absurd (trackAggDirStat_not_reg h) hreg
    · injection h with h2
      subst h2
      exact absurd (dirStat_not_reg env _ rfl rfl) hreg
    · split at h
      · cases hg : getFileContent env cat path with
        | error e =>
          rw [hg] at h
          exact Except.noConfusion h
        | ok c =>
          rw [hg] at h
          simp only [Except.bind] at h
          split at h
          · exact Except.noConfusion h
          · injection h with h2
            subst h2
            exact ⟨c, rfl, rfl⟩
      · exact Except.noConfusion h
    · split at h
      · cases hg : getFileContent env cat path with
        | error e =>
          rw [hg] at h
          exact Except.noConfusion h
        | ok c =>
          rw [hg] at h
          simp only [Except.map] at h
          injection h with h2
          subst h2
          exact ⟨c, rfl, rfl⟩
      · split at h
        · split at h
          · cases hg : getFileContent env cat path with
            | error e =>
              rw [hg] at h
              exact Except.noConfusion h
            | ok c =>
              rw [hg] at h
              simp only [Except.map] at h
              injection h with h2
              subst h2
              exact ⟨c, rfl, rfl⟩
          · exact Except.noConfusion h
        · exact Except.noConfusion h
    · split at h
      · split at h
        · split at h
          · cases hg : getFileContent env cat path with
            | error e =>
              rw [hg] at h
              exact Except.noConfusion h
            | ok c =>
              rw [hg] at h
              simp only [Except.map] at h
              injection h with h2
              subst h2
              exact ⟨c, rfl, rfl⟩
          · exact Except.noConfusion h
        · exact Except.noConfusion h
      · exact Except.noConfusion h
    · injection h with h2
      subst h2
      exact absurd (dirStat_not_reg env _ rfl rfl) hreg
    · injection h with h2
      subst h2
      exact absurd (dirStat_not_reg env _ rfl rfl) hreg
    · exact Except.noConfusion h

/-- C1 (confirmed): for every path whose getattr stat carries the regular-file
bit (every synthetic file node: HELP.txt, ABOUT.txt, image.url, tracks.m3u,
tracks.json, track .txt files), the stat's `size` equals the UTF-8 byte
length of the content the read path materializes for the same catalog
snapshot, and a read at offset 0 with length at least `size` returns exactly
`size` bytes. -/
theorem getattr_size_matches_read (env : Env) (cat : Catalog) (path : String)
    (s : Stat) (len : Nat)
    (hok : getattr env cat path = .ok s) (hreg : s.mode &&& S_IFREG ≠ 0)
    (hlen : s.size ≤ len) :
    ∃ c, readContent env cat path = .ok c ∧ s.size = c.utf8ByteSize ∧
      read env cat path len 0 = .ok s.size := by
  have key : ∃ q, getattrNR env cat q = .ok s ∧
      readContent env cat path = getFileContent env cat q := by
    unfold getattr at hok
    unfold readContent
    rcases hpp : parseParts path with - | ⟨root, - | ⟨ch, - | ⟨sub, rest⟩⟩⟩
    · rw [hpp] at hok
      dsimp only at hok
      exact ⟨path, hok, rfl⟩
    · rw [hpp] at hok
      dsimp only at hok
      exact ⟨path, hok, rfl⟩
    · rw [hpp] at hok
      dsimp only at hok
      dsimp only
      by_cases hfd : root = "favorites" ∨ root = "downloads"
      · exact absurd (getattrNR_two_seg_dir hpp hok) hreg
      · rw [if_neg hfd]
        exact ⟨path, hok, rfl⟩
    · rw [hpp] at hok
      dsimp only at hok
      dsimp only
      by_cases hfd : root = "favorites" ∨ root = "downloads"
      · rw [if_pos hfd] at hok ⊢
        refine ⟨aliasRewrite ch (some sub) rest.head?, hok, ?_⟩
        congr 1
        cases rest <;> rfl
      · rw [if_neg hfd] at hok ⊢
        exact ⟨path, hok, rfl⟩
  obtain ⟨q, hq, hrc⟩ := key
  obtain ⟨c, hgc, hsize⟩ := getattrNR_file_size hq hreg
  refine ⟨c, by rw [hrc, hgc], hsize, ?_⟩
  unfold read
  rw [hrc, hgc]
  simp only [Except.map]
  have harith : min (0 + len) c.utf8ByteSize - min 0 c.utf8ByteSize = s.size := by
    rw [hsize] at hlen ⊢
    omega
  rw [harith]

set_option maxRecDepth 8000 in
/-- C1 witness. -/
theorem getattr_size_matches_read_witness :
    ∃ c, readContent envW catW "/HELP.txt" = .ok c ∧
      (createStat envW
        { mode := 0o444, size := helpText.utf8ByteSize, isDir := false }).size =
        c.utf8ByteSize ∧
      read envW catW "/HELP.txt" 100000 0 = .ok (createStat envW
        { mode := 0o444, size := helpText.utf8ByteSize, isDir := false }).size :=
  getattr_size_matches_read envW catW "/HELP.txt"
    (createStat envW { mode := 0o444, size := helpText.utf8ByteSize, isDir := false })
    100000 rfl (by decide) (by decide)

end R4Fuse
